import Mathlib

/-!
# SQUEUE: a mergeable priority queue on skew / leftist heaps

Shallow embedding of `src/squeue.cpp` and of the drain loop of `src/mytest.cpp`.

* A `Post*` of the source is a value of `PostPtr`: `nullptr`, or a node that owns its
  two subtrees. Nodes are exclusively owned in the source (a tree, never a DAG),
  so the in-place pointer updates of the source are value updates here.
* `int` is `Int`; every `int` of the queue (`m_size`, `m_npl`, scores) is only compared,
  incremented or decremented, and signed overflow is undefined behaviour in the source.
* A `prifn_t` of the source is a function pointer. Pointers are compared in
  `mergeWithQueue` and called everywhere else, so the type of pointers is a
  parameter `prifn_t` with decidable equality and `call : prifn_t → Post → Int`
  gives the code each pointer refers to.
* Exceptions are the `Except Exn` monad.
-/

namespace SQueueModel

/-- Modelled from the spec: the record type `Post` declared in `squeue.h` (absent):
an identifier and four signed integer attributes, supplied at construction,
read back unchanged by the getters and immutable thereafter. The heap-internal
fields (`m_left`, `m_right`, `m_npl`) live in `PostPtr.node`. -/
structure Post where
  m_postID : Int
  m_likes : Int
  m_connectLevel : Int
  m_postTime : Int
  m_interestLevel : Int
deriving DecidableEq, Repr

/-- A `Post*`: null, or an owned node with its payload, `m_left`, `m_right`, `m_npl`. -/
inductive PostPtr where
  | nullptr : PostPtr
  | node (post : Post) (m_left m_right : PostPtr) (m_npl : Int) : PostPtr
deriving DecidableEq, Repr

/-- Modelled from the spec: the enumeration `HEAPTYPE` of `squeue.h` (absent). -/
inductive HEAPTYPE where
  | MINHEAP
  | MAXHEAP
deriving DecidableEq, Repr

/-- Modelled from the spec: the enumeration `STRUCTURE` of `squeue.h` (absent). -/
inductive STRUCTURE where
  | SKEW
  | LEFTIST
deriving DecidableEq, Repr

/-- The exceptions thrown by `squeue.cpp`. -/
inductive Exn where
  | out_of_range (what : String)
  | domain_error (what : String)
deriving DecidableEq, Repr

open PostPtr HEAPTYPE STRUCTURE

/-- Number of nodes of a tree. -/
def PostPtr.count : PostPtr → Nat
  | nullptr => 0
  | node _ l r _ => l.count + r.count + 1

/-- Pre-order listing (node, left subtree, right subtree) of the payloads. -/
def PostPtr.preorder : PostPtr → List Post
  | nullptr => []
  | node p l r _ => p :: (l.preorder ++ r.preorder)

/-- The multiset of records held by a tree. -/
def PostPtr.records (h : PostPtr) : Multiset Post := (h.preorder : Multiset Post)

/-- The expression `(p ? p->m_npl : 0)` of `mergeNodes`. -/
def nplOr0 : PostPtr → Int
  | nullptr => 0
  | node _ _ _ n => n

/-- `SQueue::comparePosts` (squeue.cpp 73-81), on the two dereferenced records. -/
def comparePosts (func : Post → Int) (heapType : HEAPTYPE) (h1 h2 : Post) : Bool :=
  let p1 := func h1
  let p2 := func h2
  if heapType = MINHEAP then decide (p1 ≤ p2) else decide (p1 ≥ p2)

/-- The part of `SQueue::mergeNodes` (squeue.cpp 95-112) after the roots are ordered:
`h1` is the node `post, left, right, npl` that stays on top and `merged` is the value
of the recursive call `mergeNodes(h1->m_right, h2)`. -/
def mergeStep (m_structure : STRUCTURE) (post : Post) (left : PostPtr) (npl : Int)
    (merged : PostPtr) : PostPtr :=
  if m_structure = SKEW then
    node post merged left npl
  else
    let nplLeft := nplOr0 left
    let nplRight := nplOr0 merged
    let swapped : PostPtr × PostPtr :=
      if nplLeft < nplRight then (merged, left) else (left, merged)
    node post swapped.1 swapped.2
      (match swapped.2 with
        | nullptr => 0
        | node _ _ _ n => n + 1)

/-- `SQueue::mergeNodes` (squeue.cpp 84-113); the three members it reads are arguments. -/
def mergeNodes (m_priorFunc : Post → Int) (m_heapType : HEAPTYPE) (m_structure : STRUCTURE) :
    PostPtr → PostPtr → PostPtr
  | nullptr, h2 => h2
  | node p1 l1 r1 n1, nullptr => node p1 l1 r1 n1
  | node p1 l1 r1 n1, node p2 l2 r2 n2 =>
    if comparePosts m_priorFunc m_heapType p1 p2 then
      mergeStep m_structure p1 l1 n1
        (mergeNodes m_priorFunc m_heapType m_structure r1 (node p2 l2 r2 n2))
    else
      mergeStep m_structure p2 l2 n2
        (mergeNodes m_priorFunc m_heapType m_structure r2 (node p1 l1 r1 n1))
termination_by h1 h2 => h1.count + h2.count
decreasing_by
  all_goals simp_wf
  all_goals simp only [PostPtr.count]
  all_goals omega

/-- `SQueue::rebuildHelper` (squeue.cpp 204-213): `newHeap` is passed by reference in
the source and returned here. The visited node is detached (children null, npl 0)
before it is merged into `newHeap`. -/
def rebuildHelper (m_priorFunc : Post → Int) (m_heapType : HEAPTYPE) (m_structure : STRUCTURE) :
    PostPtr → PostPtr → PostPtr
  | nullptr, newHeap => newHeap
  | node post left right _, newHeap =>
    let newHeap1 := mergeNodes m_priorFunc m_heapType m_structure newHeap
      (node post nullptr nullptr 0)
    let newHeap2 := rebuildHelper m_priorFunc m_heapType m_structure left newHeap1
    rebuildHelper m_priorFunc m_heapType m_structure right newHeap2

/-- `SQueue::deepCopy` (squeue.cpp 39-48). -/
def deepCopy : PostPtr → PostPtr
  | nullptr => nullptr
  | node p l r n =>
    node ⟨p.m_postID, p.m_likes, p.m_connectLevel, p.m_postTime, p.m_interestLevel⟩
      (deepCopy l) (deepCopy r) n

/-- The members of `class SQueue`. -/
structure SQueue (prifn_t : Type) where
  m_heap : PostPtr
  m_size : Int
  m_priorFunc : prifn_t
  m_heapType : HEAPTYPE
  m_structure : STRUCTURE

section Controller

variable {prifn_t : Type}

/-- The constructor `SQueue::SQueue(priFn, heapType, structure)` (squeue.cpp 9-15). -/
def SQueue.construct (priFn : prifn_t) (heapType : HEAPTYPE) (structure1 : STRUCTURE) :
    SQueue prifn_t :=
  { m_heap := nullptr, m_size := 0, m_priorFunc := priFn, m_heapType := heapType,
    m_structure := structure1 }

/-- `SQueue::clear` (squeue.cpp 32-36); the deleted nodes are simply dropped. -/
def SQueue.clear (q : SQueue prifn_t) : SQueue prifn_t :=
  { q with m_heap := nullptr, m_size := 0 }

/-- The copy constructor `SQueue::SQueue(const SQueue& rhs)` (squeue.cpp 51-57). -/
def SQueue.copy (rhs : SQueue prifn_t) : SQueue prifn_t :=
  { m_priorFunc := rhs.m_priorFunc, m_heapType := rhs.m_heapType,
    m_structure := rhs.m_structure, m_size := rhs.m_size, m_heap := deepCopy rhs.m_heap }

/-- `SQueue::operator=` (squeue.cpp 60-70); `thisAddr` and `rhsAddr` are the addresses
of the two objects, compared by `this != &rhs`. -/
def SQueue.assign (thisAddr rhsAddr : Nat) (this rhs : SQueue prifn_t) : SQueue prifn_t :=
  if thisAddr ≠ rhsAddr then
    let cleared := this.clear
    { cleared with m_priorFunc := rhs.m_priorFunc, m_heapType := rhs.m_heapType,
                   m_structure := rhs.m_structure, m_size := rhs.m_size,
                   m_heap := deepCopy rhs.m_heap }
  else this

/-- `SQueue::numPosts` (squeue.cpp 153-155). -/
def SQueue.numPosts (q : SQueue prifn_t) : Int := q.m_size

/-- `SQueue::mergeWithQueue` (squeue.cpp 116-132): the receiver and the donor after
the call, or the exception thrown. -/
def SQueue.mergeWithQueue [DecidableEq prifn_t] (call : prifn_t → Post → Int) (thisAddr rhsAddr : Nat)
    (this rhs : SQueue prifn_t) : Except Exn (SQueue prifn_t × SQueue prifn_t) :=
  if thisAddr = rhsAddr then
    .error (Exn.domain_error "Cannot merge queue with itself.")
  else if this.m_priorFunc ≠ rhs.m_priorFunc ∨ this.m_heapType ≠ rhs.m_heapType ∨
      this.m_structure ≠ rhs.m_structure then
    .error (Exn.domain_error "Incompatible queues cannot be merged.")
  else
    .ok ({ this with
            m_heap := mergeNodes (call this.m_priorFunc) this.m_heapType this.m_structure
              this.m_heap rhs.m_heap,
            m_size := this.m_size + rhs.m_size },
         { rhs with m_heap := nullptr, m_size := 0 })

/-- `SQueue::insertPost` (squeue.cpp 135-150): the returned flag and the queue after
the call. -/
def SQueue.insertPost (call : prifn_t → Post → Int) (q : SQueue prifn_t) (post : Post) :
    Bool × SQueue prifn_t :=
  if call q.m_priorFunc post = 0 then
    (false, q)
  else
    let newNode := node ⟨post.m_postID, post.m_likes, post.m_connectLevel, post.m_postTime,
      post.m_interestLevel⟩ nullptr nullptr 0
    (true, { q with
      m_heap := mergeNodes (call q.m_priorFunc) q.m_heapType q.m_structure q.m_heap newNode,
      m_size := q.m_size + 1 })

/-- `SQueue::getNextPost` (squeue.cpp 163-175): the record returned by value (the
payload of `Post result = *m_heap`) and the queue after the call, or the exception
thrown. -/
def SQueue.getNextPost (call : prifn_t → Post → Int) (q : SQueue prifn_t) :
    Except Exn (Post × SQueue prifn_t) :=
  match q.m_heap with
  | nullptr => .error (Exn.out_of_range "Queue is empty")
  | node result m_left m_right _ =>
    .ok (result, { q with
      m_heap := mergeNodes (call q.m_priorFunc) q.m_heapType q.m_structure m_left m_right,
      m_size := q.m_size - 1 })

/-- `SQueue::rebuildHeap` (squeue.cpp 216-220). -/
def SQueue.rebuildHeap (call : prifn_t → Post → Int) (q : SQueue prifn_t) : SQueue prifn_t :=
  { q with
    m_heap := rebuildHelper (call q.m_priorFunc) q.m_heapType q.m_structure q.m_heap nullptr }

/-- `SQueue::setPriorityFn` (squeue.cpp 178-183). -/
def SQueue.setPriorityFn (call : prifn_t → Post → Int) (q : SQueue prifn_t)
    (priFn : prifn_t) (heapType : HEAPTYPE) : SQueue prifn_t :=
  SQueue.rebuildHeap call { q with m_priorFunc := priFn, m_heapType := heapType }

/-- `SQueue::setStructure` (squeue.cpp 186-190). -/
def SQueue.setStructure (call : prifn_t → Post → Int) (q : SQueue prifn_t)
    (structure1 : STRUCTURE) : SQueue prifn_t :=
  SQueue.rebuildHeap call { q with m_structure := structure1 }

/-- `SQueue::getPriorityFn` (squeue.cpp 158-160). -/
def SQueue.getPriorityFn (q : SQueue prifn_t) : prifn_t := q.m_priorFunc

/-- `SQueue::getStructure` (squeue.cpp 193-195). -/
def SQueue.getStructure (q : SQueue prifn_t) : STRUCTURE := q.m_structure

/-- `SQueue::getHeapType` (squeue.cpp 198-200). -/
def SQueue.getHeapType (q : SQueue prifn_t) : HEAPTYPE := q.m_heapType

/-- The drain loop of the tests (mytest.cpp 183-187 and its copies):
`while (queue.numPosts() > 0) { Post p = queue.getNextPost(); ... }`.
Returns the records in the order they were extracted and the queue left behind;
an exception of `getNextPost` leaves the loop. -/
def drain (call : prifn_t → Post → Int) (queue : SQueue prifn_t) :
    Except Exn (List Post × SQueue prifn_t) :=
  if queue.numPosts > 0 then
    match h : SQueue.getNextPost call queue with
    | .error e => .error e
    | .ok (p, queue1) =>
      match drain call queue1 with
      | .error e => .error e
      | .ok (rest, queue2) => .ok (p :: rest, queue2)
  else
    .ok ([], queue)
termination_by queue.m_size.toNat
decreasing_by
  rename_i hpos
  have hs : queue1.m_size = queue.m_size - 1 := by
    unfold SQueue.getNextPost at h
    split at h
    · cases h
    · cases h; rfl
  simp only [SQueue.numPosts] at hpos
  omega

/-- `Tester::checkRemovalOrder` (mytest.cpp 156-162), on the list of the vector's
entries: every entry is compared with its predecessor. -/
def checkRemovalOrder : List Int → Bool → Bool
  | [], _ => true
  | [_], _ => true
  | a :: b :: rest, isMinHeap =>
    if isMinHeap && decide (a > b) then false
    else if !isMinHeap && decide (a < b) then false
    else checkRemovalOrder (b :: rest) isMinHeap

end Controller

/-- `priorityFn1` (mytest.cpp 15-18). -/
def priorityFn1 (post : Post) : Int :=
  let priority := post.m_likes + post.m_interestLevel
  if priority ≥ 1 ∧ priority ≤ 510 then priority else 0

/-- `priorityFn2` (mytest.cpp 20-23). -/
def priorityFn2 (post : Post) : Int :=
  let priority := post.m_postTime + post.m_connectLevel
  if priority ≥ 2 ∧ priority ≤ 55 then priority else 0

/-- The two priority functions of `mytest.cpp`, as function pointers. -/
inductive TestFn where
  | priorityFn1
  | priorityFn2
deriving DecidableEq, Repr

/-- The code behind each function pointer of `TestFn`. -/
def TestFn.call : TestFn → Post → Int
  | TestFn.priorityFn1 => SQueueModel.priorityFn1
  | TestFn.priorityFn2 => SQueueModel.priorityFn2

/-! ## Specification vocabulary -/

/-- Record `a` ranks at least as high as record `b`: `≤` on scores for MIN-first,
`≥` for MAX-first. -/
def ranksAtLeast (f : Post → Int) (heapType : HEAPTYPE) (a b : Post) : Prop :=
  match heapType with
  | MINHEAP => f a ≤ f b
  | MAXHEAP => f a ≥ f b

/-- A list of scores is non-decreasing (MIN-first) or non-increasing (MAX-first). -/
def scoresOrdered (heapType : HEAPTYPE) (scores : List Int) : Prop :=
  match heapType with
  | MINHEAP => scores.Pairwise (fun a b => a ≤ b)
  | MAXHEAP => scores.Pairwise (fun a b => a ≥ b)

/-- Record `p` ranks at least as high as the root of `h`, when `h` has one. -/
def ranksRoot (f : Post → Int) (heapType : HEAPTYPE) (p : Post) : PostPtr → Prop
  | nullptr => True
  | node c _ _ _ => ranksAtLeast f heapType p c

/-- Heap order: every node ranks at least as high as each of its children. -/
def heapOrdered (f : Post → Int) (heapType : HEAPTYPE) : PostPtr → Prop
  | nullptr => True
  | node p l r _ =>
    ranksRoot f heapType p l ∧ ranksRoot f heapType p r ∧
      heapOrdered f heapType l ∧ heapOrdered f heapType r

/-- The null-path-length a node must store: that of its right child plus one, and
0 when the right child is absent. -/
def nplOfRight : PostPtr → Int
  | nullptr => 0
  | node _ _ _ n => n + 1

/-- Leftist invariant at every node: `npl(left) ≥ npl(right)` with an absent child
read as 0, and the stored null-path-length is `nplOfRight` of the right child. -/
def leftistInv : PostPtr → Prop
  | nullptr => True
  | node _ l r n => nplOr0 l ≥ nplOr0 r ∧ n = nplOfRight r ∧ leftistInv l ∧ leftistInv r

/-- States reachable from construction by the public operations. `allowed` says
which rebinds of the scoring function are taken into account. -/
inductive ReachableBy {prifn_t : Type} [DecidableEq prifn_t] (call : prifn_t → Post → Int)
    (allowed : SQueue prifn_t → prifn_t → HEAPTYPE → Prop) : SQueue prifn_t → Prop
  | construct (priFn : prifn_t) (heapType : HEAPTYPE) (structure1 : STRUCTURE) :
      ReachableBy call allowed (SQueue.construct priFn heapType structure1)
  | insertPost (q : SQueue prifn_t) (post : Post) :
      ReachableBy call allowed q → ReachableBy call allowed (SQueue.insertPost call q post).2
  | getNextPost (q q1 : SQueue prifn_t) (p : Post) :
      ReachableBy call allowed q → SQueue.getNextPost call q = .ok (p, q1) →
      ReachableBy call allowed q1
  | mergeReceiver (thisAddr rhsAddr : Nat) (this rhs this1 rhs1 : SQueue prifn_t) :
      ReachableBy call allowed this → ReachableBy call allowed rhs →
      SQueue.mergeWithQueue call thisAddr rhsAddr this rhs = .ok (this1, rhs1) →
      ReachableBy call allowed this1
  | mergeDonor (thisAddr rhsAddr : Nat) (this rhs this1 rhs1 : SQueue prifn_t) :
      ReachableBy call allowed this → ReachableBy call allowed rhs →
      SQueue.mergeWithQueue call thisAddr rhsAddr this rhs = .ok (this1, rhs1) →
      ReachableBy call allowed rhs1
  | setPriorityFn (q : SQueue prifn_t) (priFn : prifn_t) (heapType : HEAPTYPE) :
      ReachableBy call allowed q → allowed q priFn heapType →
      ReachableBy call allowed (SQueue.setPriorityFn call q priFn heapType)
  | setStructure (q : SQueue prifn_t) (structure1 : STRUCTURE) :
      ReachableBy call allowed q → ReachableBy call allowed (SQueue.setStructure call q structure1)
  | clear (q : SQueue prifn_t) :
      ReachableBy call allowed q → ReachableBy call allowed q.clear
  | copy (rhs : SQueue prifn_t) :
      ReachableBy call allowed rhs → ReachableBy call allowed (SQueue.copy rhs)
  | assign (thisAddr rhsAddr : Nat) (this rhs : SQueue prifn_t) :
      ReachableBy call allowed this → ReachableBy call allowed rhs →
      ReachableBy call allowed (SQueue.assign thisAddr rhsAddr this rhs)

/-- Every state reachable from construction by `insertPost`, `getNextPost`,
`mergeWithQueue`, `setPriorityFn`, `setStructure`, `clear` and copy/assignment. -/
def Reachable {prifn_t : Type} [DecidableEq prifn_t] (call : prifn_t → Post → Int)
    (q : SQueue prifn_t) : Prop :=
  ReachableBy call (fun _ _ _ => True) q

/-- Reachable states when the scoring function is only rebound to one that scores
no record of the current tree 0. -/
def ReachableNonZeroRebind {prifn_t : Type} [DecidableEq prifn_t]
    (call : prifn_t → Post → Int) (q : SQueue prifn_t) : Prop :=
  ReachableBy call (fun q0 priFn _ => ∀ r ∈ q0.m_heap.records, call priFn r ≠ 0) q

/-- The queue after `insertPost` of each record of `posts`, in order. -/
def insertAll {prifn_t : Type} (call : prifn_t → Post → Int) (q : SQueue prifn_t) :
    List Post → SQueue prifn_t
  | [] => q
  | post :: rest => insertAll call (SQueue.insertPost call q post).2 rest

/-! ## Concrete inputs -/

/-- A record valid under both test functions: `priorityFn1` gives 12, `priorityFn2` 8. -/
def postA : Post := ⟨1, 10, 3, 5, 2⟩

/-- A record valid under both test functions: `priorityFn1` gives 11, `priorityFn2` 2. -/
def postB : Post := ⟨2, 4, 1, 1, 7⟩

/-- A record that `priorityFn1` scores 15 and `priorityFn2` scores 0. -/
def postC : Post := ⟨3, 10, 0, 0, 5⟩

/-- A MIN-first leftist queue under `priorityFn2` holding `postA`. -/
def queueA : SQueue TestFn :=
  (SQueue.insertPost TestFn.call
    (SQueue.construct TestFn.priorityFn2 MINHEAP LEFTIST) postA).2

/-- A MIN-first leftist queue under `priorityFn2` holding `postB`. -/
def queueB : SQueue TestFn :=
  (SQueue.insertPost TestFn.call
    (SQueue.construct TestFn.priorityFn2 MINHEAP LEFTIST) postB).2

/-- A MAX-first skew queue under `priorityFn1` holding `postC`. -/
def queueC : SQueue TestFn :=
  (SQueue.insertPost TestFn.call
    (SQueue.construct TestFn.priorityFn1 MAXHEAP SKEW) postC).2

/-- The queue `queueC` after `setPriorityFn(priorityFn2, MINHEAP)`. -/
def queueCRebound : SQueue TestFn :=
  SQueue.setPriorityFn TestFn.call queueC TestFn.priorityFn2 MINHEAP

/-- The queue `queueA` after `setPriorityFn(priorityFn1, MAXHEAP)`. -/
def queueARebound : SQueue TestFn :=
  SQueue.setPriorityFn TestFn.call queueA TestFn.priorityFn1 MAXHEAP

/-! ## Objects in memory

The two operations that throw are also given with the queue objects held in a
memory indexed by address, each statement of the source being one step of explicit
state passing: the memory returned with an exception is the memory at the `throw`. -/

/-- The queue objects of a program, by address. -/
def Objects (prifn_t : Type) : Type := Nat → SQueue prifn_t

/-- The memory after the object at `addr` is overwritten with `q`. -/
def Objects.write {prifn_t : Type} (mem : Objects prifn_t) (addr : Nat) (q : SQueue prifn_t) :
    Objects prifn_t :=
  fun a => if a = addr then q else mem a

/-- `SQueue::getNextPost` (squeue.cpp 163-175) called on the object at `addr`: the
returned record or the exception, and the memory after the call. -/
def getNextPostAt {prifn_t : Type} (call : prifn_t → Post → Int) (addr : Nat)
    (mem : Objects prifn_t) : Except Exn Post × Objects prifn_t :=
  match (mem addr).m_heap with
  | nullptr => (.error (Exn.out_of_range "Queue is empty"), mem)
  | node result m_left m_right _ =>
    let mem1 := mem.write addr { mem addr with
      m_heap := mergeNodes (call (mem addr).m_priorFunc) (mem addr).m_heapType
        (mem addr).m_structure m_left m_right }
    let mem2 := mem1.write addr { mem1 addr with m_size := (mem1 addr).m_size - 1 }
    (.ok result, mem2)

/-- `SQueue::mergeWithQueue` (squeue.cpp 116-132) called on the object at `thisAddr`
with the object at `rhsAddr` as `rhs`: success or the exception, and the memory
after the call. With `thisAddr = rhsAddr` the two references alias one object. -/
def mergeWithQueueAt {prifn_t : Type} [DecidableEq prifn_t] (call : prifn_t → Post → Int)
    (thisAddr rhsAddr : Nat) (mem : Objects prifn_t) : Except Exn Unit × Objects prifn_t :=
  if thisAddr = rhsAddr then
    (.error (Exn.domain_error "Cannot merge queue with itself."), mem)
  else if (mem thisAddr).m_priorFunc ≠ (mem rhsAddr).m_priorFunc ∨
      (mem thisAddr).m_heapType ≠ (mem rhsAddr).m_heapType ∨
      (mem thisAddr).m_structure ≠ (mem rhsAddr).m_structure then
    (.error (Exn.domain_error "Incompatible queues cannot be merged."), mem)
  else
    let mem1 := mem.write thisAddr { mem thisAddr with
      m_heap := mergeNodes (call (mem thisAddr).m_priorFunc) (mem thisAddr).m_heapType
        (mem thisAddr).m_structure (mem thisAddr).m_heap (mem rhsAddr).m_heap }
    let mem2 := mem1.write thisAddr { mem1 thisAddr with
      m_size := (mem1 thisAddr).m_size + (mem1 rhsAddr).m_size }
    let mem3 := mem2.write rhsAddr { mem2 rhsAddr with m_heap := nullptr }
    let mem4 := mem3.write rhsAddr { mem3 rhsAddr with m_size := 0 }
    (.ok (), mem4)

/-- `SQueue::operator=` (squeue.cpp 60-70) called on the object at `thisAddr` with the
object at `rhsAddr` as `rhs`: the memory after the call. -/
def assignAt {prifn_t : Type} (thisAddr rhsAddr : Nat) (mem : Objects prifn_t) :
    Objects prifn_t :=
  if thisAddr ≠ rhsAddr then
    let mem1 := mem.write thisAddr (mem thisAddr).clear
    let mem2 := mem1.write thisAddr { mem1 thisAddr with
      m_priorFunc := (mem1 rhsAddr).m_priorFunc }
    let mem3 := mem2.write thisAddr { mem2 thisAddr with
      m_heapType := (mem2 rhsAddr).m_heapType }
    let mem4 := mem3.write thisAddr { mem3 thisAddr with
      m_structure := (mem3 rhsAddr).m_structure }
    let mem5 := mem4.write thisAddr { mem4 thisAddr with m_size := (mem4 rhsAddr).m_size }
    mem5.write thisAddr { mem5 thisAddr with m_heap := deepCopy (mem5 rhsAddr).m_heap }
  else mem

/-- The copy constructor `SQueue::SQueue(const SQueue& rhs)` (squeue.cpp 51-57)
building a new object at `newAddr` from the object at `rhsAddr`. -/
def copyAt {prifn_t : Type} (newAddr rhsAddr : Nat) (mem : Objects prifn_t) :
    Objects prifn_t :=
  mem.write newAddr (SQueue.copy (mem rhsAddr))

/-! ## Further specification vocabulary -/

/-- The payload of the root node, when the tree has one. -/
def PostPtr.rootPost : PostPtr → Option Post
  | nullptr => none
  | node p _ _ _ => some p

/-- The nodes of a tree, each as its payload with its stored null-path-length. -/
def PostPtr.nodes : PostPtr → Multiset (Post × Int)
  | nullptr => 0
  | node p l r n => (p, n) ::ₘ (l.nodes + r.nodes)

/-- The singleton tree of a record: absent children and null-path-length 0. -/
def singleton (record : Post) : PostPtr := node record nullptr nullptr 0

/-- The re-merge the specification describes for a rebuild: the left fold over a
listing of records of `acc := mergeNodes(acc, singleton(record))`, starting from
the absent tree. -/
def remergeInOrder (f : Post → Int) (heapType : HEAPTYPE) (structure1 : STRUCTURE)
    (listing : List Post) : PostPtr :=
  listing.foldl (fun acc record => mergeNodes f heapType structure1 acc (singleton record))
    nullptr

/-- A memory holding `queueA` at address 1, `queueB` at address 2, `queueC` at
address 3 and freshly constructed queues elsewhere. -/
def memABC : Objects TestFn :=
  fun a =>
    if a = 1 then queueA
    else if a = 2 then queueB
    else if a = 3 then queueC
    else SQueue.construct TestFn.priorityFn1 MAXHEAP SKEW

/-- A two-node skew tree: `postA` above `postB`. -/
def treeAB : PostPtr := node postA (node postB nullptr nullptr 0) nullptr 0

/-! ## Vocabulary for the shape of leftist trees -/

/-- The null path length of the root of a tree as the glossary defines it: the
length, in edges, of the shortest downward path to a node with at most one child
(0 for the absent tree, which has no node). -/
def nullPathLength : PostPtr → Nat
  | nullptr => 0
  | node _ l r _ =>
    match l, r with
    | node _ _ _ _, node _ _ _ _ => 1 + min (nullPathLength l) (nullPathLength r)
    | _, _ => 0

/-- The number of edges on the rightmost path below the root of a tree. -/
def rightSpine : PostPtr → Nat
  | nullptr => 0
  | node _ _ r _ =>
    match r with
    | nullptr => 0
    | node _ _ _ _ => rightSpine r + 1

/-- The property `P` holds of the subtree rooted at every node of the tree. -/
def everyNode (P : PostPtr → Prop) : PostPtr → Prop
  | nullptr => True
  | node p l r n => P (node p l r n) ∧ everyNode P l ∧ everyNode P r

/-- The flags returned by `insertPost` for each record of `posts`, in order. -/
def insertResults {prifn_t : Type} (call : prifn_t → Post → Int) (q : SQueue prifn_t) :
    List Post → List Bool
  | [] => []
  | post :: rest =>
    (SQueue.insertPost call q post).1 ::
      insertResults call (SQueue.insertPost call q post).2 rest

/-- The records of `posts` that the scoring function `f` does not score 0. -/
def accepted (f : Post → Int) (posts : List Post) : List Post :=
  posts.filter (fun r => decide (f r ≠ 0))

/-- A MIN-first leftist queue under `priorityFn2` after `insertPost(postB)` (score 2)
and then `insertPost(postA)` (score 8). -/
def queueBA : SQueue TestFn :=
  insertAll TestFn.call (SQueue.construct TestFn.priorityFn2 MINHEAP LEFTIST) [postB, postA]

/-- A MIN-first leftist queue under `priorityFn2` after `insertPost(postA)` (score 8),
`insertPost(postB)` (score 2) and `insertPost(postA)` again. -/
def queueABA : SQueue TestFn :=
  insertAll TestFn.call (SQueue.construct TestFn.priorityFn2 MINHEAP LEFTIST)
    [postA, postB, postA]

/-- The queue `queueBA` after `setPriorityFn(priorityFn1, MAXHEAP)`: `priorityFn1`
scores `postA` 12 and `postB` 11. -/
def queueBARebound : SQueue TestFn :=
  SQueue.setPriorityFn TestFn.call queueBA TestFn.priorityFn1 MAXHEAP

/-! ## Basic facts on `comparePosts` and `mergeNodes` -/

theorem comparePosts_iff (f : Post → Int) (ht : HEAPTYPE) (a b : Post) :
    comparePosts f ht a b = true ↔ ranksAtLeast f ht a b := by
  cases ht <;> simp [comparePosts, ranksAtLeast]

theorem ranksAtLeast_refl (f : Post → Int) (ht : HEAPTYPE) (a : Post) :
    ranksAtLeast f ht a a := by
  cases ht <;> simp [ranksAtLeast]

theorem ranksAtLeast_trans (f : Post → Int) (ht : HEAPTYPE) {a b c : Post}
    (hab : ranksAtLeast f ht a b) (hbc : ranksAtLeast f ht b c) : ranksAtLeast f ht a c := by
  cases ht <;> simp only [ranksAtLeast] at * <;> omega

theorem ranksAtLeast_of_not (f : Post → Int) (ht : HEAPTYPE) {a b : Post}
    (hab : ¬ ranksAtLeast f ht a b) : ranksAtLeast f ht b a := by
  cases ht <;> simp only [ranksAtLeast] at * <;> omega

theorem mergeNodes_nullptr_left (f : Post → Int) (ht : HEAPTYPE) (st : STRUCTURE)
    (h : PostPtr) : mergeNodes f ht st nullptr h = h := by
  rw [mergeNodes]

theorem mergeNodes_nullptr_right (f : Post → Int) (ht : HEAPTYPE) (st : STRUCTURE)
    (h : PostPtr) : mergeNodes f ht st h nullptr = h := by
  cases h <;> rw [mergeNodes]

theorem mergeNodes_node_node (f : Post → Int) (ht : HEAPTYPE) (st : STRUCTURE)
    (p1 : Post) (l1 r1 : PostPtr) (n1 : Int) (p2 : Post) (l2 r2 : PostPtr) (n2 : Int) :
    mergeNodes f ht st (node p1 l1 r1 n1) (node p2 l2 r2 n2) =
      if comparePosts f ht p1 p2 then
        mergeStep st p1 l1 n1 (mergeNodes f ht st r1 (node p2 l2 r2 n2))
      else
        mergeStep st p2 l2 n2 (mergeNodes f ht st r2 (node p1 l1 r1 n1)) := by
  rw [mergeNodes]

theorem records_nullptr : PostPtr.records nullptr = 0 := rfl

theorem records_node (p : Post) (l r : PostPtr) (n : Int) :
    (node p l r n).records = p ::ₘ (l.records + r.records) := by
  simp [PostPtr.records, PostPtr.preorder]

theorem records_mergeStep (st : STRUCTURE) (p : Post) (l : PostPtr) (n : Int) (m : PostPtr) :
    (mergeStep st p l n m).records = p ::ₘ (l.records + m.records) := by
  unfold mergeStep
  split
  · rw [records_node, add_comm]
  · dsimp only
    split
    · rw [records_node, add_comm]
    · rw [records_node]

theorem records_mergeNodes (f : Post → Int) (ht : HEAPTYPE) (st : STRUCTURE)
    (h1 h2 : PostPtr) :
    (mergeNodes f ht st h1 h2).records = h1.records + h2.records := by
  induction h1, h2 using mergeNodes.induct f ht st with
  | case1 h2 => rw [mergeNodes_nullptr_left, records_nullptr, zero_add]
  | case2 p1 l1 r1 n1 => rw [mergeNodes_nullptr_right, records_nullptr, add_zero]
  | case3 p1 l1 r1 n1 p2 l2 r2 n2 hc ih =>
    rw [mergeNodes_node_node, if_pos hc, records_mergeStep, ih, records_node p1]
    simp only [Multiset.cons_add, add_assoc]
  | case4 p1 l1 r1 n1 p2 l2 r2 n2 hc ih =>
    rw [mergeNodes_node_node, if_neg hc, records_mergeStep, ih, records_node p2,
      add_comm (PostPtr.records (node p1 l1 r1 n1))]
    simp only [Multiset.cons_add, add_assoc]

theorem card_records (h : PostPtr) : Multiset.card h.records = h.count := by
  induction h with
  | nullptr => rfl
  | node p l r n ihl ihr =>
    rw [records_node, Multiset.card_cons, Multiset.card_add, ihl, ihr]
    rfl

theorem count_mergeNodes (f : Post → Int) (ht : HEAPTYPE) (st : STRUCTURE) (h1 h2 : PostPtr) :
    (mergeNodes f ht st h1 h2).count = h1.count + h2.count := by
  rw [← card_records, records_mergeNodes, Multiset.card_add, card_records, card_records]

theorem count_eq_zero_iff (h : PostPtr) : h.count = 0 ↔ h = nullptr := by
  cases h <;> simp [PostPtr.count]

/-! ## Heap order -/

theorem ranksRoot_mergeStep (f : Post → Int) (ht : HEAPTYPE) (st : STRUCTURE) (x p : Post)
    (l : PostPtr) (n : Int) (m : PostPtr) (hx : ranksAtLeast f ht x p) :
    ranksRoot f ht x (mergeStep st p l n m) := by
  unfold mergeStep
  split
  · exact hx
  · exact hx

theorem ranksRoot_mergeNodes (f : Post → Int) (ht : HEAPTYPE) (st : STRUCTURE) (x : Post)
    (h1 h2 : PostPtr) (hx1 : ranksRoot f ht x h1) (hx2 : ranksRoot f ht x h2) :
    ranksRoot f ht x (mergeNodes f ht st h1 h2) := by
  cases h1 with
  | nullptr => rw [mergeNodes_nullptr_left]; exact hx2
  | node p1 l1 r1 n1 =>
    cases h2 with
    | nullptr => rw [mergeNodes_nullptr_right]; exact hx1
    | node p2 l2 r2 n2 =>
      rw [mergeNodes_node_node]
      split
      · exact ranksRoot_mergeStep f ht st x p1 l1 n1 _ hx1
      · exact ranksRoot_mergeStep f ht st x p2 l2 n2 _ hx2

theorem heapOrdered_mergeStep (f : Post → Int) (ht : HEAPTYPE) (st : STRUCTURE) (p : Post)
    (l : PostPtr) (n : Int) (m : PostPtr) (hl : ranksRoot f ht p l) (hm : ranksRoot f ht p m)
    (hol : heapOrdered f ht l) (hom : heapOrdered f ht m) :
    heapOrdered f ht (mergeStep st p l n m) := by
  unfold mergeStep
  split
  · exact ⟨hm, hl, hom, hol⟩
  · dsimp only
    split
    · exact ⟨hm, hl, hom, hol⟩
    · exact ⟨hl, hm, hol, hom⟩

theorem heapOrdered_mergeNodes (f : Post → Int) (ht : HEAPTYPE) (st : STRUCTURE)
    (h1 h2 : PostPtr) (ho1 : heapOrdered f ht h1) (ho2 : heapOrdered f ht h2) :
    heapOrdered f ht (mergeNodes f ht st h1 h2) := by
  induction h1, h2 using mergeNodes.induct f ht st with
  | case1 h2 => rw [mergeNodes_nullptr_left]; exact ho2
  | case2 p1 l1 r1 n1 => rw [mergeNodes_nullptr_right]; exact ho1
  | case3 p1 l1 r1 n1 p2 l2 r2 n2 hc ih =>
    rw [mergeNodes_node_node, if_pos hc]
    obtain ⟨hl, hr, hol, hor⟩ := ho1
    refine heapOrdered_mergeStep f ht st p1 l1 n1 _ hl ?_ hol (ih hor ho2)
    exact ranksRoot_mergeNodes f ht st p1 r1 _ hr ((comparePosts_iff f ht p1 p2).1 hc)
  | case4 p1 l1 r1 n1 p2 l2 r2 n2 hc ih =>
    rw [mergeNodes_node_node, if_neg hc]
    obtain ⟨hl, hr, hol, hor⟩ := ho2
    refine heapOrdered_mergeStep f ht st p2 l2 n2 _ hl ?_ hol (ih hor ho1)
    have h21 : ranksAtLeast f ht p2 p1 :=
      ranksAtLeast_of_not f ht (fun h => hc ((comparePosts_iff f ht p1 p2).2 h))
    exact ranksRoot_mergeNodes f ht st p2 r2 _ hr h21

theorem ranksRoot_trans (f : Post → Int) (ht : HEAPTYPE) {a b : Post} (h : PostPtr)
    (hab : ranksAtLeast f ht a b) (hb : ranksRoot f ht b h) : ranksRoot f ht a h := by
  cases h with
  | nullptr => trivial
  | node c l r n => exact ranksAtLeast_trans f ht hab hb

/-- In a heap-ordered tree, whatever ranks at least as high as the root ranks at
least as high as every record. -/
theorem ranks_all_of_ranksRoot (f : Post → Int) (ht : HEAPTYPE) (h : PostPtr) :
    ∀ x : Post, heapOrdered f ht h → ranksRoot f ht x h → ∀ y ∈ h.records,
      ranksAtLeast f ht x y := by
  induction h with
  | nullptr => intro x _ _ y hy; simp [records_nullptr] at hy
  | node p l r n ihl ihr =>
    intro x ho hx y hy
    obtain ⟨hl, hr, hol, hor⟩ := ho
    rw [records_node, Multiset.mem_cons, Multiset.mem_add] at hy
    rcases hy with rfl | hy | hy
    · exact hx
    · exact ihl x hol (ranksRoot_trans f ht l hx hl) y hy
    · exact ihr x hor (ranksRoot_trans f ht r hx hr) y hy

theorem root_ranks_all (f : Post → Int) (ht : HEAPTYPE) (p : Post) (l r : PostPtr) (n : Int)
    (ho : heapOrdered f ht (node p l r n)) :
    ∀ y ∈ (node p l r n).records, ranksAtLeast f ht p y :=
  ranks_all_of_ranksRoot f ht (node p l r n) p ho (ranksAtLeast_refl f ht p)

/-! ## Leftist invariant -/

theorem leftistInv_mergeStep (p : Post) (l : PostPtr) (n : Int) (m : PostPtr)
    (hl : leftistInv l) (hm : leftistInv m) : leftistInv (mergeStep LEFTIST p l n m) := by
  unfold mergeStep
  rw [if_neg (by decide)]
  dsimp only
  split
  · rename_i hlt
    refine ⟨le_of_lt hlt, ?_, hm, hl⟩
    cases l <;> rfl
  · rename_i hge
    refine ⟨not_lt.1 hge, ?_, hl, hm⟩
    cases m <;> rfl

theorem leftistInv_mergeNodes (f : Post → Int) (ht : HEAPTYPE) (h1 h2 : PostPtr)
    (hv1 : leftistInv h1) (hv2 : leftistInv h2) :
    leftistInv (mergeNodes f ht LEFTIST h1 h2) := by
  induction h1, h2 using mergeNodes.induct f ht LEFTIST with
  | case1 h2 => rw [mergeNodes_nullptr_left]; exact hv2
  | case2 p1 l1 r1 n1 => rw [mergeNodes_nullptr_right]; exact hv1
  | case3 p1 l1 r1 n1 p2 l2 r2 n2 hc ih =>
    rw [mergeNodes_node_node, if_pos hc]
    exact leftistInv_mergeStep p1 l1 n1 _ hv1.2.2.1 (ih hv1.2.2.2 hv2)
  | case4 p1 l1 r1 n1 p2 l2 r2 n2 hc ih =>
    rw [mergeNodes_node_node, if_neg hc]
    exact leftistInv_mergeStep p2 l2 n2 _ hv2.2.2.1 (ih hv2.2.2.2 hv1)

/-! ## Rebuild -/

theorem heapOrdered_singleton (f : Post → Int) (ht : HEAPTYPE) (p : Post) (n : Int) :
    heapOrdered f ht (node p nullptr nullptr n) :=
  ⟨trivial, trivial, trivial, trivial⟩

theorem leftistInv_singleton (p : Post) : leftistInv (node p nullptr nullptr 0) :=
  ⟨le_refl _, rfl, trivial, trivial⟩

theorem records_rebuildHelper (f : Post → Int) (ht : HEAPTYPE) (st : STRUCTURE) (h : PostPtr) :
    ∀ acc : PostPtr, (rebuildHelper f ht st h acc).records = acc.records + h.records := by
  induction h with
  | nullptr => intro acc; simp [rebuildHelper, records_nullptr]
  | node p l r n ihl ihr =>
    intro acc
    simp only [rebuildHelper]
    rw [ihr, ihl, records_mergeNodes, records_node p l r, records_node p nullptr nullptr,
      records_nullptr]
    simp only [add_zero, Multiset.add_cons, Multiset.cons_add, add_assoc, zero_add,
      Multiset.cons_zero, Multiset.singleton_add]

theorem heapOrdered_rebuildHelper (f : Post → Int) (ht : HEAPTYPE) (st : STRUCTURE)
    (h : PostPtr) : ∀ acc : PostPtr, heapOrdered f ht acc →
      heapOrdered f ht (rebuildHelper f ht st h acc) := by
  induction h with
  | nullptr => intro acc ha; simpa [rebuildHelper] using ha
  | node p l r n ihl ihr =>
    intro acc ha
    simp only [rebuildHelper]
    exact ihr _ (ihl _ (heapOrdered_mergeNodes f ht st _ _ ha (heapOrdered_singleton f ht p 0)))

theorem leftistInv_rebuildHelper (f : Post → Int) (ht : HEAPTYPE) (h : PostPtr) :
    ∀ acc : PostPtr, leftistInv acc → leftistInv (rebuildHelper f ht LEFTIST h acc) := by
  induction h with
  | nullptr => intro acc ha; simpa [rebuildHelper] using ha
  | node p l r n ihl ihr =>
    intro acc ha
    simp only [rebuildHelper]
    exact ihr _ (ihl _ (leftistInv_mergeNodes f ht _ _ ha (leftistInv_singleton p)))

theorem count_rebuildHelper (f : Post → Int) (ht : HEAPTYPE) (st : STRUCTURE) (h : PostPtr) :
    (rebuildHelper f ht st h nullptr).count = h.count := by
  rw [← card_records, records_rebuildHelper, records_nullptr, zero_add, card_records]

theorem deepCopy_eq (h : PostPtr) : deepCopy h = h := by
  induction h with
  | nullptr => rfl
  | node p l r n ihl ihr => simp only [deepCopy, ihl, ihr]

/-! ## Invariants of the reachable states -/

theorem mergeWithQueue_ok {prifn_t : Type} [DecidableEq prifn_t] (call : prifn_t → Post → Int) (thisAddr rhsAddr : Nat)
    (this rhs this1 rhs1 : SQueue prifn_t)
    (h : SQueue.mergeWithQueue call thisAddr rhsAddr this rhs = .ok (this1, rhs1)) :
    thisAddr ≠ rhsAddr ∧ this.m_priorFunc = rhs.m_priorFunc ∧
      this.m_heapType = rhs.m_heapType ∧ this.m_structure = rhs.m_structure ∧
      this1 = { this with
        m_heap := mergeNodes (call this.m_priorFunc) this.m_heapType this.m_structure
          this.m_heap rhs.m_heap,
        m_size := this.m_size + rhs.m_size } ∧
      rhs1 = { rhs with m_heap := nullptr, m_size := 0 } := by
  unfold SQueue.mergeWithQueue at h
  split at h
  · cases h
  · rename_i hne
    split at h
    · cases h
    · rename_i hcompat
      simp only [not_or, not_not] at hcompat
      cases h
      exact ⟨hne, hcompat.1, hcompat.2.1, hcompat.2.2, rfl, rfl⟩

theorem getNextPost_ok {prifn_t : Type} (call : prifn_t → Post → Int) (q q1 : SQueue prifn_t) (p : Post)
    (h : SQueue.getNextPost call q = .ok (p, q1)) :
    ∃ l r n, q.m_heap = node p l r n ∧
      q1 = { q with
        m_heap := mergeNodes (call q.m_priorFunc) q.m_heapType q.m_structure l r,
        m_size := q.m_size - 1 } := by
  unfold SQueue.getNextPost at h
  split at h
  · cases h
  · rename_i result l r n hq
    cases h
    exact ⟨l, r, n, hq, rfl⟩

/-- The three invariants every reachable state satisfies: heap order under the
current comparator, `m_size` is the number of nodes, and the leftist invariant
when the mode is LEFTIST. -/
theorem reachableBy_invariants {prifn_t : Type} [DecidableEq prifn_t] (call : prifn_t → Post → Int)
    (allowed : SQueue prifn_t → prifn_t → HEAPTYPE → Prop) (q : SQueue prifn_t)
    (hq : ReachableBy call allowed q) :
    heapOrdered (call q.m_priorFunc) q.m_heapType q.m_heap ∧
      q.m_size = (q.m_heap.count : Int) ∧
      (q.m_structure = LEFTIST → leftistInv q.m_heap) := by
  induction hq with
  | construct priFn heapType structure1 =>
    exact ⟨trivial, rfl, fun _ => trivial⟩
  | insertPost q post _ ih =>
    obtain ⟨ho, hs, hl⟩ := ih
    unfold SQueue.insertPost
    split
    · exact ⟨ho, hs, hl⟩
    · refine ⟨heapOrdered_mergeNodes _ _ _ _ _ ho (heapOrdered_singleton _ _ _ _), ?_, ?_⟩
      · simp only [count_mergeNodes, PostPtr.count, hs]
        push_cast
        ring
      · intro hst
        simp only at hst
        simp only [hst]
        exact leftistInv_mergeNodes _ _ _ _ (hl hst) (leftistInv_singleton _)
  | getNextPost q q1 p _ hget ih =>
    obtain ⟨ho, hs, hl⟩ := ih
    obtain ⟨l, r, n, hheap, rfl⟩ := getNextPost_ok call q q1 p hget
    rw [hheap] at ho hs hl
    refine ⟨heapOrdered_mergeNodes _ _ _ _ _ ho.2.2.1 ho.2.2.2, ?_, ?_⟩
    · simp only [count_mergeNodes, PostPtr.count] at hs ⊢
      rw [hs]
      push_cast
      ring
    · intro hst
      simp only at hst
      simp only [hst]
      exact leftistInv_mergeNodes _ _ _ _ (hl hst).2.2.1 (hl hst).2.2.2
  | mergeReceiver thisAddr rhsAddr this rhs this1 rhs1 _ _ hm ih1 ih2 =>
    obtain ⟨ho1, hs1, hl1⟩ := ih1
    obtain ⟨ho2, hs2, hl2⟩ := ih2
    obtain ⟨_, hf, hht, hst, rfl, _⟩ := mergeWithQueue_ok call thisAddr rhsAddr this rhs _ _ hm
    rw [← hf, ← hht] at ho2
    refine ⟨heapOrdered_mergeNodes _ _ _ _ _ ho1 ho2, ?_, ?_⟩
    · simp only [count_mergeNodes, hs1, hs2]
      push_cast
      ring
    · intro h
      simp only at h
      simp only [h]
      exact leftistInv_mergeNodes _ _ _ _ (hl1 h) (hl2 (hst ▸ h))
  | mergeDonor thisAddr rhsAddr this rhs this1 rhs1 _ _ hm _ _ =>
    obtain ⟨_, _, _, _, _, rfl⟩ := mergeWithQueue_ok call thisAddr rhsAddr this rhs _ _ hm
    exact ⟨trivial, rfl, fun _ => trivial⟩
  | setPriorityFn q priFn heapType _ _ ih =>
    obtain ⟨_, hs, _⟩ := ih
    refine ⟨heapOrdered_rebuildHelper _ _ _ _ _ trivial, ?_, ?_⟩
    · simp only [SQueue.setPriorityFn, SQueue.rebuildHeap, count_rebuildHelper, hs]
    · intro hst
      simp only [SQueue.setPriorityFn, SQueue.rebuildHeap] at hst ⊢
      rw [hst]
      exact leftistInv_rebuildHelper _ _ _ _ trivial
  | setStructure q structure1 _ ih =>
    obtain ⟨_, hs, _⟩ := ih
    refine ⟨heapOrdered_rebuildHelper _ _ _ _ _ trivial, ?_, ?_⟩
    · simp only [SQueue.setStructure, SQueue.rebuildHeap, count_rebuildHelper, hs]
    · intro hst
      simp only [SQueue.setStructure, SQueue.rebuildHeap] at hst ⊢
      rw [hst]
      exact leftistInv_rebuildHelper _ _ _ _ trivial
  | clear q _ _ =>
    exact ⟨trivial, rfl, fun _ => trivial⟩
  | copy rhs _ ih =>
    simpa only [SQueue.copy, deepCopy_eq] using ih
  | assign thisAddr rhsAddr this rhs _ _ ih1 ih2 =>
    unfold SQueue.assign
    split
    · simpa only [SQueue.clear, deepCopy_eq] using ih2
    · exact ih1

/-! ## The drain loop -/

theorem scoresOrdered_map (f : Post → Int) (ht : HEAPTYPE) (out : List Post)
    (h : out.Pairwise (ranksAtLeast f ht)) : scoresOrdered ht (out.map f) := by
  cases ht
  · exact List.pairwise_map.2 h
  · exact List.pairwise_map.2 h

/-- Draining a heap-ordered queue whose counter is its node count never throws,
returns every record of the tree exactly once, best-ranked first, and leaves the
queue empty. -/
theorem drain_spec {prifn_t : Type} (call : prifn_t → Post → Int) :
    ∀ (n : Nat) (q : SQueue prifn_t), q.m_heap.count = n → q.m_size = (n : Int) →
      heapOrdered (call q.m_priorFunc) q.m_heapType q.m_heap →
      ∃ out : List Post, drain call q = .ok (out, { q with m_heap := nullptr, m_size := 0 }) ∧
        (out : Multiset Post) = q.m_heap.records ∧
        out.Pairwise (ranksAtLeast (call q.m_priorFunc) q.m_heapType) := by
  intro n
  induction n with
  | zero =>
    intro q hc hs _
    have hnull : q.m_heap = nullptr := (count_eq_zero_iff _).1 hc
    refine ⟨[], ?_, ?_, List.Pairwise.nil⟩
    · rw [drain.eq_1, if_neg (by simp [SQueue.numPosts, hs])]
      cases q
      simp only at hnull hs
      simp [hnull, hs]
    · rw [hnull]; rfl
  | succ n ih =>
    intro q hc hs ho
    cases hheap : q.m_heap with
    | nullptr => rw [hheap] at hc; simp [PostPtr.count] at hc
    | node p l r m =>
      rw [hheap] at hc ho
      have hget : SQueue.getNextPost call q = .ok (p, { q with
          m_heap := mergeNodes (call q.m_priorFunc) q.m_heapType q.m_structure l r,
          m_size := q.m_size - 1 }) := by
        unfold SQueue.getNextPost
        rw [hheap]
      have hcount : (mergeNodes (call q.m_priorFunc) q.m_heapType q.m_structure l r).count
          = n := by
        rw [count_mergeNodes]
        simp only [PostPtr.count] at hc
        omega
      obtain ⟨rest, hrest, hperm, hsorted⟩ := ih
        { q with m_heap := mergeNodes (call q.m_priorFunc) q.m_heapType q.m_structure l r,
                 m_size := q.m_size - 1 }
        hcount (by simp only [hs]; push_cast; ring)
        (heapOrdered_mergeNodes _ _ _ _ _ ho.2.2.1 ho.2.2.2)
      simp only at hrest hperm hsorted
      refine ⟨p :: rest, ?_, ?_, ?_⟩
      · rw [drain.eq_1, if_pos (by simp only [SQueue.numPosts, hs]; push_cast; omega)]
        split
        · rename_i e he
          rw [hget] at he
          cases he
        · rename_i p1 q1 he
          rw [hget] at he
          cases he
          rw [hrest]
      · rw [records_node, ← records_mergeNodes (call q.m_priorFunc) q.m_heapType
          q.m_structure, ← hperm]
        rfl
      · refine List.Pairwise.cons ?_ hsorted
        intro y hy
        have hy1 : y ∈ (rest : Multiset Post) := Multiset.mem_coe.2 hy
        rw [hperm, records_mergeNodes] at hy1
        refine root_ranks_all _ _ p l r m ho y ?_
        rw [records_node]
        exact Multiset.mem_cons_of_mem hy1

theorem checkRemovalOrder_of_scoresOrdered (ht : HEAPTYPE) :
    ∀ scores : List Int, scoresOrdered ht scores →
      checkRemovalOrder scores (decide (ht = MINHEAP)) = true := by
  intro scores
  induction scores with
  | nil => intro _; rfl
  | cons a rest ih =>
    intro h
    cases rest with
    | nil => rfl
    | cons b rest1 =>
      have htail : scoresOrdered ht (b :: rest1) := by
        cases ht <;> exact (List.pairwise_cons.1 h).2
      cases ht with
      | MINHEAP =>
        have hle : a ≤ b := (List.pairwise_cons.1 h).1 b (List.mem_cons_self _ _)
        simp only [checkRemovalOrder, decide_True, Bool.true_and, Bool.not_true,
          Bool.false_and, decide_eq_true_eq]
        rw [if_neg (by omega)]
        simpa using ih htail
      | MAXHEAP =>
        have hge : a ≥ b := (List.pairwise_cons.1 h).1 b (List.mem_cons_self _ _)
        have hdec : decide (MAXHEAP = MINHEAP) = false := by decide
        simp only [checkRemovalOrder, hdec, Bool.false_and, Bool.not_false, Bool.true_and,
          decide_eq_true_eq]
        rw [if_neg (by simp), if_neg (by omega)]
        simpa [hdec] using ih htail

/-- After valid inserts the queue is heap ordered, its counter is its node count,
it holds the old records and the inserted ones, and its comparator is unchanged. -/
theorem insertAll_spec {prifn_t : Type} (call : prifn_t → Post → Int) :
    ∀ (posts : List Post) (q : SQueue prifn_t), (∀ r ∈ posts, call q.m_priorFunc r ≠ 0) →
      heapOrdered (call q.m_priorFunc) q.m_heapType q.m_heap →
      q.m_size = (q.m_heap.count : Int) →
      heapOrdered (call q.m_priorFunc) q.m_heapType (insertAll call q posts).m_heap ∧
        (insertAll call q posts).m_size = ((insertAll call q posts).m_heap.count : Int) ∧
        (insertAll call q posts).m_heap.records = q.m_heap.records + (posts : Multiset Post) ∧
        (insertAll call q posts).m_priorFunc = q.m_priorFunc ∧
        (insertAll call q posts).m_heapType = q.m_heapType := by
  intro posts
  induction posts with
  | nil =>
    intro q _ ho hs
    refine ⟨ho, hs, ?_, rfl, rfl⟩
    simp [insertAll]
  | cons post rest ih =>
    intro q hv ho hs
    have hpost : call q.m_priorFunc post ≠ 0 := hv post (List.mem_cons_self _ _)
    have hins : SQueue.insertPost call q post = (true, { q with
        m_heap := mergeNodes (call q.m_priorFunc) q.m_heapType q.m_structure q.m_heap
          (node post nullptr nullptr 0),
        m_size := q.m_size + 1 }) := by
      unfold SQueue.insertPost
      rw [if_neg hpost]
    simp only [insertAll, hins]
    obtain ⟨h1, h2, h3, h4, h5⟩ := ih
      { q with
        m_heap := mergeNodes (call q.m_priorFunc) q.m_heapType q.m_structure q.m_heap
          (node post nullptr nullptr 0),
        m_size := q.m_size + 1 }
      (fun r hr => hv r (List.mem_cons_of_mem _ hr))
      (heapOrdered_mergeNodes _ _ _ _ _ ho (heapOrdered_singleton _ _ _ _))
      (by simp only [count_mergeNodes, PostPtr.count, hs]; push_cast; ring)
    refine ⟨h1, h2, ?_, h4, h5⟩
    rw [h3]
    simp only [records_mergeNodes, records_node, records_nullptr, add_zero]
    rw [add_assoc]
    rfl

/-! ## The example queues, evaluated -/

theorem queueBA_heap :
    queueBA.m_heap = node postB nullptr (node postA nullptr nullptr 0) 1 := by
  simp [queueBA, insertAll, SQueue.insertPost, SQueue.construct, TestFn.call, priorityFn2,
    postA, postB, mergeNodes_nullptr_left, mergeNodes_node_node, comparePosts, mergeStep,
    nplOr0]

theorem queueABA_heap :
    queueABA.m_heap =
      node postB (node postA nullptr (node postA nullptr nullptr 0) 1) nullptr 0 := by
  simp [queueABA, insertAll, SQueue.insertPost, SQueue.construct, TestFn.call, priorityFn2,
    postA, postB, mergeNodes_nullptr_left, mergeNodes_node_node, comparePosts, mergeStep,
    nplOr0]

theorem queueBARebound_heap :
    queueBARebound.m_heap = node postA nullptr (node postB nullptr nullptr 0) 1 := by
  have hmode : queueBA.m_structure = LEFTIST := by decide
  simp [queueBARebound, SQueue.setPriorityFn, SQueue.rebuildHeap, queueBA_heap, hmode,
    rebuildHelper, TestFn.call, priorityFn1, postA, postB, mergeNodes_nullptr_left,
    mergeNodes_node_node, comparePosts, mergeStep, nplOr0]

theorem queueBA_eq : queueBA =
    { m_heap := node postB nullptr (node postA nullptr nullptr 0) 1, m_size := 2,
      m_priorFunc := TestFn.priorityFn2, m_heapType := MINHEAP, m_structure := LEFTIST } := by
  have h2 : queueBA = ⟨queueBA.m_heap, 2, TestFn.priorityFn2, MINHEAP, LEFTIST⟩ := rfl
  rw [h2, queueBA_heap]

theorem queueBARebound_eq : queueBARebound =
    { m_heap := node postA nullptr (node postB nullptr nullptr 0) 1, m_size := 2,
      m_priorFunc := TestFn.priorityFn1, m_heapType := MAXHEAP, m_structure := LEFTIST } := by
  have h2 : queueBARebound =
      ⟨queueBARebound.m_heap, 2, TestFn.priorityFn1, MAXHEAP, LEFTIST⟩ := rfl
  rw [h2, queueBARebound_heap]

/-- Before the rebind `queueBA` drains to `postB` (score 2), then `postA` (score 8). -/
theorem queueBA_drain :
    drain TestFn.call queueBA =
      .ok ([postB, postA],
        { m_heap := nullptr, m_size := 0, m_priorFunc := TestFn.priorityFn2,
          m_heapType := MINHEAP, m_structure := LEFTIST }) := by
  rw [queueBA_eq, drain.eq_1]
  simp only [SQueue.numPosts, SQueue.getNextPost, mergeNodes_nullptr_left]
  rw [drain.eq_1]
  simp only [SQueue.numPosts, SQueue.getNextPost, mergeNodes_nullptr_left]
  rw [drain.eq_1]
  simp [SQueue.numPosts]

/-- After the rebind to `priorityFn1`, MAX-first, the same two records drain in the
other order: `postA` (score 12), then `postB` (score 11). -/
theorem queueBARebound_drain :
    drain TestFn.call queueBARebound =
      .ok ([postA, postB],
        { m_heap := nullptr, m_size := 0, m_priorFunc := TestFn.priorityFn1,
          m_heapType := MAXHEAP, m_structure := LEFTIST }) := by
  rw [queueBARebound_eq, drain.eq_1]
  simp only [SQueue.numPosts, SQueue.getNextPost, mergeNodes_nullptr_left]
  rw [drain.eq_1]
  simp only [SQueue.numPosts, SQueue.getNextPost, mergeNodes_nullptr_left]
  rw [drain.eq_1]
  simp [SQueue.numPosts]

theorem queueABA_getNextPost :
    SQueue.getNextPost TestFn.call queueABA =
      .ok (postB, { queueABA with
        m_heap := mergeNodes (TestFn.call queueABA.m_priorFunc) queueABA.m_heapType
          queueABA.m_structure (node postA nullptr (node postA nullptr nullptr 0) 1) nullptr,
        m_size := queueABA.m_size - 1 }) := by
  unfold SQueue.getNextPost
  rw [queueABA_heap]

/-! ## The claims -/

/-- C1: for every scoring function, direction and mode, inserting records that all
score non-zero into a freshly constructed queue and then draining it with the loop
`while numPosts() > 0: getNextPost()` never throws, stops with `numPosts() = 0`,
returns exactly the inserted records, and their scores come out non-decreasing
(MIN-first) or non-increasing (MAX-first), so `checkRemovalOrder` accepts them. -/
theorem C1_inserts_then_drain_ordered {prifn_t : Type} (call : prifn_t → Post → Int)
    (priFn : prifn_t) (heapType : HEAPTYPE) (structure1 : STRUCTURE) (posts : List Post)
    (hvalid : ∀ r ∈ posts, call priFn r ≠ 0) :
    ∃ (out : List Post) (final : SQueue prifn_t),
      drain call (insertAll call (SQueue.construct priFn heapType structure1) posts)
        = .ok (out, final) ∧
      final.numPosts = 0 ∧ final.m_heap = nullptr ∧
      out.Perm posts ∧
      scoresOrdered heapType (out.map (call priFn)) ∧
      checkRemovalOrder (out.map (call priFn)) (decide (heapType = MINHEAP)) = true := by
  obtain ⟨ho, hs, hrec, hf, hht⟩ := insertAll_spec call posts
    (SQueue.construct priFn heapType structure1) hvalid trivial rfl
  obtain ⟨out, hdrain, hperm, hsorted⟩ := drain_spec call _ _ rfl hs (by rw [hf, hht]; exact ho)
  rw [hf, hht] at hsorted
  have hord : scoresOrdered heapType (out.map (call priFn)) :=
    scoresOrdered_map (call priFn) heapType out hsorted
  refine ⟨out, _, hdrain, rfl, rfl, ?_, hord, checkRemovalOrder_of_scoresOrdered _ _ hord⟩
  rw [hrec] at hperm
  simp only [SQueue.construct, records_nullptr, zero_add] at hperm
  exact Multiset.coe_eq_coe.1 hperm

/-- Witness of C1: three valid records under `priorityFn2`, MIN-first, leftist. -/
theorem C1_inserts_then_drain_ordered_witness :
    (∀ r ∈ [postA, postB, postA], TestFn.call TestFn.priorityFn2 r ≠ 0) ∧
    ∃ (out : List Post) (final : SQueue TestFn),
      drain TestFn.call (insertAll TestFn.call
        (SQueue.construct TestFn.priorityFn2 MINHEAP LEFTIST) [postA, postB, postA])
        = .ok (out, final) ∧
      final.numPosts = 0 ∧ final.m_heap = nullptr ∧
      out.Perm [postA, postB, postA] ∧
      scoresOrdered MINHEAP (out.map (TestFn.call TestFn.priorityFn2)) ∧
      checkRemovalOrder (out.map (TestFn.call TestFn.priorityFn2))
        (decide (MINHEAP = MINHEAP)) = true :=
  ⟨by decide, C1_inserts_then_drain_ordered TestFn.call TestFn.priorityFn2 MINHEAP LEFTIST
    [postA, postB, postA] (by decide)⟩

/-- C2: in every reachable queue state every node ranks at least as high as each of
its children under the current scoring function and direction (`≤` on scores for
MIN-first, `≥` for MAX-first), and the record `getNextPost` returns ranks at least
as high as every record of the queue. -/
theorem C2_heap_order_invariant {prifn_t : Type} [DecidableEq prifn_t]
    (call : prifn_t → Post → Int) (q : SQueue prifn_t) (hq : Reachable call q) :
    heapOrdered (call q.m_priorFunc) q.m_heapType q.m_heap ∧
      ∀ (p : Post) (q1 : SQueue prifn_t), SQueue.getNextPost call q = .ok (p, q1) →
        ∀ r ∈ q.m_heap.records, ranksAtLeast (call q.m_priorFunc) q.m_heapType p r := by
  have ho := (reachableBy_invariants call _ q hq).1
  refine ⟨ho, ?_⟩
  intro p q1 hget r hr
  obtain ⟨l, rt, n, hheap, _⟩ := getNextPost_ok call q q1 p hget
  rw [hheap] at ho hr
  exact root_ranks_all _ _ p l rt n ho r hr

/-- Witness of C2: the queue reached by inserting `postA` (score 8), `postB` (score 2)
and `postA` again, MIN-first: the root is `postB`, above a two-node left subtree,
and `postB` is what `getNextPost` returns. -/
theorem C2_heap_order_invariant_witness :
    Reachable TestFn.call queueABA ∧
    queueABA.m_heap =
      node postB (node postA nullptr (node postA nullptr nullptr 0) 1) nullptr 0 ∧
    heapOrdered (TestFn.call queueABA.m_priorFunc) queueABA.m_heapType queueABA.m_heap ∧
    (∀ r ∈ queueABA.m_heap.records,
      ranksAtLeast (TestFn.call queueABA.m_priorFunc) queueABA.m_heapType postB r) :=
  ⟨ReachableBy.insertPost _ postA
      (ReachableBy.insertPost _ postB
        (ReachableBy.insertPost _ postA (ReachableBy.construct _ _ _))),
   queueABA_heap,
   (C2_heap_order_invariant TestFn.call queueABA
      (ReachableBy.insertPost _ postA
        (ReachableBy.insertPost _ postB
          (ReachableBy.insertPost _ postA (ReachableBy.construct _ _ _))))).1,
   (C2_heap_order_invariant TestFn.call queueABA
      (ReachableBy.insertPost _ postA
        (ReachableBy.insertPost _ postB
          (ReachableBy.insertPost _ postA (ReachableBy.construct _ _ _))))).2
      postB _ queueABA_getNextPost⟩

/-- C3: in every reachable queue state whose mode is LEFTIST, every node satisfies
`npl(left) ≥ npl(right)` (an absent child read as 0, as `mergeNodes` reads it) and
stores `npl(right child) + 1`, or 0 when the right child is absent. -/
theorem C3_leftist_invariant {prifn_t : Type} [DecidableEq prifn_t]
    (call : prifn_t → Post → Int) (q : SQueue prifn_t) (hq : Reachable call q)
    (hmode : q.m_structure = LEFTIST) : leftistInv q.m_heap :=
  (reachableBy_invariants call _ q hq).2.2 hmode

/-- Witness of C3: the leftist queue reached by inserting `postA`, `postB` and `postA`
again; the third insert runs the LEFTIST branch with a swap of the children of the
root, which ends with a left subtree of stored null-path-length 1, no right child
and stored null-path-length 0. -/
theorem C3_leftist_invariant_witness :
    Reachable TestFn.call queueABA ∧ queueABA.m_structure = LEFTIST ∧
    queueABA.m_heap =
      node postB (node postA nullptr (node postA nullptr nullptr 0) 1) nullptr 0 ∧
    leftistInv queueABA.m_heap :=
  ⟨ReachableBy.insertPost _ postA
      (ReachableBy.insertPost _ postB
        (ReachableBy.insertPost _ postA (ReachableBy.construct _ _ _))),
   by decide,
   queueABA_heap,
   C3_leftist_invariant TestFn.call queueABA
    (ReachableBy.insertPost _ postA
      (ReachableBy.insertPost _ postB
        (ReachableBy.insertPost _ postA (ReachableBy.construct _ _ _))))
    (by decide)⟩

/-- C4: for every reachable queue, new scoring function and new direction, after
`setPriorityFn` the drain loop never throws, stops with `numPosts() = 0`, returns
exactly the records the queue held, and their scores under the new function come
out non-decreasing (MIN-first) or non-increasing (MAX-first). -/
theorem C4_rebuild_then_drain_ordered {prifn_t : Type} [DecidableEq prifn_t]
    (call : prifn_t → Post → Int) (q : SQueue prifn_t) (hq : Reachable call q)
    (priFn : prifn_t) (heapType : HEAPTYPE) :
    ∃ (out : List Post) (final : SQueue prifn_t),
      drain call (SQueue.setPriorityFn call q priFn heapType) = .ok (out, final) ∧
      final.numPosts = 0 ∧ final.m_heap = nullptr ∧
      (out : Multiset Post) = q.m_heap.records ∧
      scoresOrdered heapType (out.map (call priFn)) ∧
      checkRemovalOrder (out.map (call priFn)) (decide (heapType = MINHEAP)) = true := by
  have hq1 : Reachable call (SQueue.setPriorityFn call q priFn heapType) :=
    ReachableBy.setPriorityFn q priFn heapType hq trivial
  obtain ⟨ho, hs, _⟩ := reachableBy_invariants call _ _ hq1
  obtain ⟨out, hdrain, hperm, hsorted⟩ := drain_spec call _ _ rfl hs ho
  have hord : scoresOrdered heapType (out.map (call priFn)) :=
    scoresOrdered_map (call priFn) heapType out hsorted
  refine ⟨out, _, hdrain, rfl, rfl, ?_, hord, checkRemovalOrder_of_scoresOrdered _ _ hord⟩
  rw [hperm]
  simp only [SQueue.setPriorityFn, SQueue.rebuildHeap, records_rebuildHelper, records_nullptr,
    zero_add]

/-- Witness of C4: the two-record queue `queueBA`, which drains to `postB`, `postA`
under `priorityFn2` MIN-first, is rebound to `priorityFn1`, MAX-first; the rebuild
puts `postA` (score 12) above `postB` (score 11) and the drain returns them in
that order, the reverse of the order before the rebind. -/
theorem C4_rebuild_then_drain_ordered_witness :
    Reachable TestFn.call queueBA ∧
    (drain TestFn.call queueBA).map (fun r => r.1) = .ok [postB, postA] ∧
    (SQueue.setPriorityFn TestFn.call queueBA TestFn.priorityFn1 MAXHEAP).m_heap =
      node postA nullptr (node postB nullptr nullptr 0) 1 ∧
    (drain TestFn.call
      (SQueue.setPriorityFn TestFn.call queueBA TestFn.priorityFn1 MAXHEAP)).map
        (fun r => r.1) = .ok [postA, postB] ∧
    ∃ (out : List Post) (final : SQueue TestFn),
      drain TestFn.call (SQueue.setPriorityFn TestFn.call queueBA TestFn.priorityFn1 MAXHEAP)
        = .ok (out, final) ∧
      final.numPosts = 0 ∧ final.m_heap = nullptr ∧
      (out : Multiset Post) = queueBA.m_heap.records ∧
      scoresOrdered MAXHEAP (out.map (TestFn.call TestFn.priorityFn1)) ∧
      checkRemovalOrder (out.map (TestFn.call TestFn.priorityFn1))
        (decide (MAXHEAP = MINHEAP)) = true :=
  ⟨ReachableBy.insertPost _ postA
      (ReachableBy.insertPost _ postB (ReachableBy.construct _ _ _)),
   by rw [queueBA_drain]; rfl,
   queueBARebound_heap,
   by
    have h := queueBARebound_drain
    unfold queueBARebound at h
    rw [h]
    rfl,
   C4_rebuild_then_drain_ordered TestFn.call queueBA
    (ReachableBy.insertPost _ postA
      (ReachableBy.insertPost _ postB (ReachableBy.construct _ _ _)))
    TestFn.priorityFn1 MAXHEAP⟩

/-- C5: when the current scoring function scores the record 0, `insertPost` returns
false and the queue state (tree, counter, scoring function, direction, mode) is
unchanged. -/
theorem C5_rejection {prifn_t : Type} (call : prifn_t → Post → Int) (q : SQueue prifn_t)
    (post : Post) (hzero : call q.m_priorFunc post = 0) :
    SQueue.insertPost call q post = (false, q) := by
  unfold SQueue.insertPost
  rw [if_pos hzero]

/-- Witness of C5: `postC` scores 0 under `priorityFn2`, the function of `queueA`. -/
theorem C5_rejection_witness :
    TestFn.call queueA.m_priorFunc postC = 0 ∧
    SQueue.insertPost TestFn.call queueA postC = (false, queueA) :=
  ⟨by simp [queueA, SQueue.insertPost, SQueue.construct, TestFn.call, priorityFn2, postA, postC],
   C5_rejection TestFn.call queueA postC
    (by simp [queueA, SQueue.insertPost, SQueue.construct, TestFn.call, priorityFn2, postA,
      postC])⟩

theorem queueA_heap : queueA.m_heap = node postA nullptr nullptr 0 := by
  simp [queueA, SQueue.insertPost, SQueue.construct, TestFn.call, priorityFn2, postA,
    mergeNodes_nullptr_left]

theorem queueB_heap : queueB.m_heap = node postB nullptr nullptr 0 := by
  simp [queueB, SQueue.insertPost, SQueue.construct, TestFn.call, priorityFn2, postB,
    mergeNodes_nullptr_left]

theorem queueC_heap : queueC.m_heap = node postC nullptr nullptr 0 := by
  simp [queueC, SQueue.insertPost, SQueue.construct, TestFn.call, priorityFn1, postC,
    mergeNodes_nullptr_left]

theorem queueCRebound_heap : queueCRebound.m_heap = node postC nullptr nullptr 0 := by
  simp [queueCRebound, SQueue.setPriorityFn, SQueue.rebuildHeap, queueC_heap, rebuildHelper,
    mergeNodes_nullptr_left]

theorem reachable_queueA : ReachableNonZeroRebind TestFn.call queueA :=
  ReachableBy.insertPost _ postA (ReachableBy.construct _ _ _)

/-- C6, as stated, fails: `queueC` holds `postC`, valid under `priorityFn1`; after
`setPriorityFn(priorityFn2, MINHEAP)` the reachable queue still holds `postC`, which
the now current `priorityFn2` scores 0. -/
theorem C6_counterexample :
    Reachable TestFn.call queueCRebound ∧
    queueCRebound.m_heap = node postC nullptr nullptr 0 ∧
    queueCRebound.m_priorFunc = TestFn.priorityFn2 ∧
    TestFn.call TestFn.priorityFn2 postC = 0 ∧
    ¬ (∀ q : SQueue TestFn, Reachable TestFn.call q →
        ∀ r ∈ q.m_heap.records, TestFn.call q.m_priorFunc r ≠ 0) := by
  have hreach : Reachable TestFn.call queueCRebound :=
    ReachableBy.setPriorityFn _ _ _
      (ReachableBy.insertPost _ postC (ReachableBy.construct _ _ _)) trivial
  refine ⟨hreach, queueCRebound_heap, rfl, by decide, ?_⟩
  intro hall
  refine hall queueCRebound hreach postC ?_ (by decide)
  rw [queueCRebound_heap, records_node]
  exact Multiset.mem_cons_self _ _

/-- C6, amended: in every state reachable by `insertPost`, `getNextPost`,
`mergeWithQueue`, `setStructure`, `clear`, copy/assignment, and by `setPriorityFn`
when the new scoring function scores no record of the current tree 0, every record
in the tree has a non-zero score under the queue's current scoring function. -/
theorem C6_no_zero_score_without_zero_rebind {prifn_t : Type} [DecidableEq prifn_t]
    (call : prifn_t → Post → Int) (q : SQueue prifn_t)
    (hq : ReachableNonZeroRebind call q) :
    ∀ r ∈ q.m_heap.records, call q.m_priorFunc r ≠ 0 := by
  unfold ReachableNonZeroRebind at hq
  induction hq with
  | construct priFn heapType structure1 =>
    intro r hr
    simp [SQueue.construct, records_nullptr] at hr
  | insertPost q post _ ih =>
    unfold SQueue.insertPost
    split
    · exact ih
    · rename_i hnz
      intro r hr
      simp only [records_mergeNodes, records_node, records_nullptr, add_zero,
        Multiset.mem_add, Multiset.mem_cons, Multiset.not_mem_zero, or_false] at hr
      rcases hr with hr | rfl
      · exact ih r hr
      · exact hnz
  | getNextPost q q1 p _ hget ih =>
    obtain ⟨l, rt, n, hheap, rfl⟩ := getNextPost_ok call q q1 p hget
    intro r hr
    simp only [records_mergeNodes] at hr
    refine ih r ?_
    rw [hheap, records_node]
    exact Multiset.mem_cons_of_mem hr
  | mergeReceiver thisAddr rhsAddr this rhs this1 rhs1 _ _ hm ih1 ih2 =>
    obtain ⟨_, hf, _, _, rfl, _⟩ := mergeWithQueue_ok call thisAddr rhsAddr this rhs _ _ hm
    intro r hr
    simp only [records_mergeNodes, Multiset.mem_add] at hr
    rcases hr with hr | hr
    · exact ih1 r hr
    · have := ih2 r hr
      rw [← hf] at this
      exact this
  | mergeDonor thisAddr rhsAddr this rhs this1 rhs1 _ _ hm _ _ =>
    obtain ⟨_, _, _, _, _, rfl⟩ := mergeWithQueue_ok call thisAddr rhsAddr this rhs _ _ hm
    intro r hr
    simp [records_nullptr] at hr
  | setPriorityFn q priFn heapType _ hallowed _ =>
    intro r hr
    simp only [SQueue.setPriorityFn, SQueue.rebuildHeap, records_rebuildHelper,
      records_nullptr, zero_add] at hr
    exact hallowed r hr
  | setStructure q structure1 _ ih =>
    intro r hr
    simp only [SQueue.setStructure, SQueue.rebuildHeap, records_rebuildHelper,
      records_nullptr, zero_add] at hr
    exact ih r hr
  | clear q _ _ =>
    intro r hr
    simp [SQueue.clear, records_nullptr] at hr
  | copy rhs _ ih =>
    simpa only [SQueue.copy, deepCopy_eq] using ih
  | assign thisAddr rhsAddr this rhs _ _ ih1 ih2 =>
    unfold SQueue.assign
    split
    · simpa only [SQueue.clear, deepCopy_eq] using ih2
    · exact ih1

/-- Witness of amended C6: `queueA` rebound to `priorityFn1`, which scores its only
record `postA` 12. -/
theorem C6_no_zero_score_without_zero_rebind_witness :
    ReachableNonZeroRebind TestFn.call queueARebound ∧
    ∀ r ∈ queueARebound.m_heap.records, TestFn.call queueARebound.m_priorFunc r ≠ 0 :=
  have hreach : ReachableNonZeroRebind TestFn.call queueARebound :=
    ReachableBy.setPriorityFn queueA TestFn.priorityFn1 MAXHEAP reachable_queueA
      (by
        intro r hr
        rw [queueA_heap, records_node] at hr
        simp only [records_nullptr, add_zero, Multiset.mem_cons, Multiset.not_mem_zero,
          or_false] at hr
        rw [hr]
        decide)
  ⟨hreach, C6_no_zero_score_without_zero_rebind TestFn.call queueARebound hreach⟩

/-- C7: for two distinct queue objects with equal scoring function, direction and
mode, `mergeWithQueue` succeeds, the receiver's `numPosts()` becomes the sum of the
two sizes, and the donor is left with `numPosts() = 0` and an absent root. -/
theorem C7_size_conservation {prifn_t : Type} [DecidableEq prifn_t]
    (call : prifn_t → Post → Int) (thisAddr rhsAddr : Nat) (this rhs : SQueue prifn_t)
    (hdistinct : thisAddr ≠ rhsAddr) (hfn : this.m_priorFunc = rhs.m_priorFunc)
    (htype : this.m_heapType = rhs.m_heapType)
    (hmode : this.m_structure = rhs.m_structure) :
    ∃ this1 rhs1 : SQueue prifn_t,
      SQueue.mergeWithQueue call thisAddr rhsAddr this rhs = .ok (this1, rhs1) ∧
      this1.numPosts = this.numPosts + rhs.numPosts ∧
      rhs1.numPosts = 0 ∧ rhs1.m_heap = nullptr := by
  refine ⟨{ this with
      m_heap := mergeNodes (call this.m_priorFunc) this.m_heapType this.m_structure
        this.m_heap rhs.m_heap,
      m_size := this.m_size + rhs.m_size },
    { rhs with m_heap := nullptr, m_size := 0 }, ?_, rfl, rfl, rfl⟩
  unfold SQueue.mergeWithQueue
  rw [if_neg hdistinct, if_neg (by simp [hfn, htype, hmode])]

/-- Witness of C7: `queueA` at address 1 receives `queueB` at address 2. -/
theorem C7_size_conservation_witness :
    (1 : Nat) ≠ 2 ∧ queueA.m_priorFunc = queueB.m_priorFunc ∧
    queueA.m_heapType = queueB.m_heapType ∧ queueA.m_structure = queueB.m_structure ∧
    ∃ this1 rhs1 : SQueue TestFn,
      SQueue.mergeWithQueue TestFn.call 1 2 queueA queueB = .ok (this1, rhs1) ∧
      this1.numPosts = queueA.numPosts + queueB.numPosts ∧
      rhs1.numPosts = 0 ∧ rhs1.m_heap = nullptr :=
  ⟨by decide, by decide, by decide, by decide,
   C7_size_conservation TestFn.call 1 2 queueA queueB (by decide) (by decide) (by decide)
    (by decide)⟩

/-- C8: in both modes and for every comparator, the multiset of records of
`mergeNodes(h1, h2)` is the multiset sum of the records of `h1` and of `h2`; hence
after a successful `mergeWithQueue` the receiver holds exactly the records the two
queues held before the call. -/
theorem C8_merge_keeps_records {prifn_t : Type} [DecidableEq prifn_t]
    (call : prifn_t → Post → Int) :
    (∀ (f : Post → Int) (ht : HEAPTYPE) (st : STRUCTURE) (h1 h2 : PostPtr),
      (mergeNodes f ht st h1 h2).records = h1.records + h2.records) ∧
    (∀ (thisAddr rhsAddr : Nat) (this rhs this1 rhs1 : SQueue prifn_t),
      SQueue.mergeWithQueue call thisAddr rhsAddr this rhs = .ok (this1, rhs1) →
      this1.m_heap.records = this.m_heap.records + rhs.m_heap.records) := by
  refine ⟨records_mergeNodes, ?_⟩
  intro thisAddr rhsAddr this rhs this1 rhs1 hok
  obtain ⟨_, _, _, _, rfl, _⟩ := mergeWithQueue_ok call thisAddr rhsAddr this rhs _ _ hok
  exact records_mergeNodes _ _ _ _ _

/-- Witness of C8: `queueA` at address 1 receives `queueB` at address 2. -/
theorem C8_merge_keeps_records_witness :
    SQueue.mergeWithQueue TestFn.call 1 2 queueA queueB =
      .ok ({ queueA with
              m_heap := mergeNodes (TestFn.call queueA.m_priorFunc) queueA.m_heapType
                queueA.m_structure queueA.m_heap queueB.m_heap,
              m_size := queueA.m_size + queueB.m_size },
           { queueB with m_heap := nullptr, m_size := 0 }) ∧
    (mergeNodes (TestFn.call queueA.m_priorFunc) queueA.m_heapType
      queueA.m_structure queueA.m_heap queueB.m_heap).records =
        queueA.m_heap.records + queueB.m_heap.records :=
  have hok : SQueue.mergeWithQueue TestFn.call 1 2 queueA queueB =
      .ok ({ queueA with
              m_heap := mergeNodes (TestFn.call queueA.m_priorFunc) queueA.m_heapType
                queueA.m_structure queueA.m_heap queueB.m_heap,
              m_size := queueA.m_size + queueB.m_size },
           { queueB with m_heap := nullptr, m_size := 0 }) := by
    unfold SQueue.mergeWithQueue
    rw [if_neg (by decide), if_neg (by decide)]
  ⟨hok, (C8_merge_keeps_records TestFn.call).2 1 2 queueA queueB _ _ hok⟩

/-- C9: when the current scoring function scores `r` non-zero, `insertPost(r)` returns
true, the new tree is `mergeNodes(old root, singleton)` where the singleton holds
the field values of `r`, absent children and null-path-length 0, `numPosts()` grows
by exactly 1, the comparator and mode are unchanged, and the multiset of records is
the old one plus `r`. -/
theorem C9_successful_insert {prifn_t : Type} (call : prifn_t → Post → Int)
    (q : SQueue prifn_t) (r : Post) (hvalid : call q.m_priorFunc r ≠ 0) :
    SQueue.insertPost call q r = (true, { q with
        m_heap := mergeNodes (call q.m_priorFunc) q.m_heapType q.m_structure q.m_heap
          (node r nullptr nullptr 0),
        m_size := q.m_size + 1 }) ∧
      (SQueue.insertPost call q r).2.numPosts = q.numPosts + 1 ∧
      (SQueue.insertPost call q r).2.m_heap.records = r ::ₘ q.m_heap.records := by
  have hins : SQueue.insertPost call q r = (true, { q with
      m_heap := mergeNodes (call q.m_priorFunc) q.m_heapType q.m_structure q.m_heap
        (node r nullptr nullptr 0),
      m_size := q.m_size + 1 }) := by
    unfold SQueue.insertPost
    rw [if_neg hvalid]
  refine ⟨hins, ?_, ?_⟩
  · rw [hins]; rfl
  · rw [hins]
    simp only [records_mergeNodes, records_node, records_nullptr, add_zero]
    rw [← Multiset.singleton_add, add_comm]
    rfl

/-- Witness of C9: `postB`, which `priorityFn2` scores 2, is inserted into `queueA`. -/
theorem C9_successful_insert_witness :
    TestFn.call queueA.m_priorFunc postB ≠ 0 ∧
    (SQueue.insertPost TestFn.call queueA postB = (true, { queueA with
        m_heap := mergeNodes (TestFn.call queueA.m_priorFunc) queueA.m_heapType
          queueA.m_structure queueA.m_heap (node postB nullptr nullptr 0),
        m_size := queueA.m_size + 1 }) ∧
      (SQueue.insertPost TestFn.call queueA postB).2.numPosts = queueA.numPosts + 1 ∧
      (SQueue.insertPost TestFn.call queueA postB).2.m_heap.records =
        postB ::ₘ queueA.m_heap.records) :=
  ⟨by decide, C9_successful_insert TestFn.call queueA postB (by decide)⟩

/-- C10: on a queue whose tree is not empty, `getNextPost` returns the payload of the
root node, the new tree is `mergeNodes(root's left child, root's right child)`,
`numPosts()` drops by exactly 1, the comparator and mode are unchanged, and the
multiset of records left is the old one minus the returned record. -/
theorem C10_extraction {prifn_t : Type} (call : prifn_t → Post → Int)
    (q : SQueue prifn_t) (hne : q.m_heap ≠ nullptr) :
    ∃ (p : Post) (l r : PostPtr) (n : Int) (q1 : SQueue prifn_t),
      q.m_heap = node p l r n ∧
      SQueue.getNextPost call q = .ok (p, q1) ∧
      q1 = { q with
        m_heap := mergeNodes (call q.m_priorFunc) q.m_heapType q.m_structure l r,
        m_size := q.m_size - 1 } ∧
      q1.numPosts = q.numPosts - 1 ∧
      q1.m_heap.records = q.m_heap.records.erase p ∧
      q.m_heap.records = p ::ₘ q1.m_heap.records := by
  cases hheap : q.m_heap with
  | nullptr => exact absurd hheap hne
  | node p l r n =>
    refine ⟨p, l, r, n, _, rfl, ?_, rfl, rfl, ?_, ?_⟩
    · unfold SQueue.getNextPost
      rw [hheap]
    · simp only [records_mergeNodes, records_node, Multiset.erase_cons_head]
    · simp only [records_mergeNodes, records_node]

/-- Witness of C10: extraction from `queueA`, whose tree is the single node `postA`. -/
theorem C10_extraction_witness :
    queueA.m_heap ≠ nullptr ∧
    ∃ (p : Post) (l r : PostPtr) (n : Int) (q1 : SQueue TestFn),
      queueA.m_heap = node p l r n ∧
      SQueue.getNextPost TestFn.call queueA = .ok (p, q1) ∧
      q1 = { queueA with
        m_heap := mergeNodes (TestFn.call queueA.m_priorFunc) queueA.m_heapType
          queueA.m_structure l r,
        m_size := queueA.m_size - 1 } ∧
      q1.numPosts = queueA.numPosts - 1 ∧
      q1.m_heap.records = queueA.m_heap.records.erase p ∧
      queueA.m_heap.records = p ::ₘ q1.m_heap.records :=
  ⟨by rw [queueA_heap]; exact PostPtr.noConfusion,
   C10_extraction TestFn.call queueA (by rw [queueA_heap]; exact PostPtr.noConfusion)⟩

/-! ## The throwing operations on objects in memory -/

theorem write_same {prifn_t : Type} (mem : Objects prifn_t) (addr : Nat) (q : SQueue prifn_t) :
    mem.write addr q addr = q := by
  simp [Objects.write]

theorem write_other {prifn_t : Type} (mem : Objects prifn_t) (addr other : Nat)
    (q : SQueue prifn_t) (hne : other ≠ addr) : mem.write addr q other = mem other := by
  simp [Objects.write, hne]

theorem write_write {prifn_t : Type} (mem : Objects prifn_t) (addr : Nat)
    (q1 q2 : SQueue prifn_t) : (mem.write addr q1).write addr q2 = mem.write addr q2 := by
  funext a
  by_cases h : a = addr <;> simp [Objects.write, h]

/-- On the object it is called on, `getNextPostAt` is `SQueue.getNextPost`; an
exception leaves the memory as it was. -/
theorem getNextPostAt_eq {prifn_t : Type} (call : prifn_t → Post → Int) (addr : Nat)
    (mem : Objects prifn_t) :
    getNextPostAt call addr mem =
      match SQueue.getNextPost call (mem addr) with
      | .ok (p, q1) => (.ok p, mem.write addr q1)
      | .error e => (.error e, mem) := by
  unfold getNextPostAt SQueue.getNextPost
  cases hheap : (mem addr).m_heap with
  | nullptr => rfl
  | node p l r n =>
    simp only [write_same, write_write]

/-- On the two objects it is called on, `mergeWithQueueAt` is `SQueue.mergeWithQueue`;
an exception leaves the memory as it was. -/
theorem mergeWithQueueAt_eq {prifn_t : Type} [DecidableEq prifn_t]
    (call : prifn_t → Post → Int) (thisAddr rhsAddr : Nat) (mem : Objects prifn_t) :
    mergeWithQueueAt call thisAddr rhsAddr mem =
      match SQueue.mergeWithQueue call thisAddr rhsAddr (mem thisAddr) (mem rhsAddr) with
      | .ok (this1, rhs1) => (.ok (), (mem.write thisAddr this1).write rhsAddr rhs1)
      | .error e => (.error e, mem) := by
  unfold mergeWithQueueAt SQueue.mergeWithQueue
  by_cases hsame : thisAddr = rhsAddr
  · simp only [if_pos hsame]
  · simp only [if_neg hsame]
    split
    · rfl
    · have hne : rhsAddr ≠ thisAddr := fun h => hsame h.symm
      simp only [write_same, write_write, write_other _ _ _ _ hne]

/-- C11: `getNextPost` throws exactly when the tree of the queue is empty, the
exception is then `out_of_range`, every freshly constructed queue throws it, and
a throwing call leaves every object (tree, counter, scoring function, direction,
mode) as it was. -/
theorem C11_empty_queue_error {prifn_t : Type} (call : prifn_t → Post → Int) (addr : Nat)
    (mem : Objects prifn_t) :
    ((∃ e, (getNextPostAt call addr mem).1 = .error e) ↔ (mem addr).m_heap = nullptr) ∧
    (∀ e, (getNextPostAt call addr mem).1 = .error e →
      e = Exn.out_of_range "Queue is empty" ∧ (getNextPostAt call addr mem).2 = mem) ∧
    (∀ (priFn : prifn_t) (heapType : HEAPTYPE) (structure1 : STRUCTURE),
      mem addr = SQueue.construct priFn heapType structure1 →
      getNextPostAt call addr mem = (.error (Exn.out_of_range "Queue is empty"), mem)) ∧
    (SQueue.getNextPost call (mem addr) = .error (Exn.out_of_range "Queue is empty") ↔
      (mem addr).m_heap = nullptr) := by
  refine ⟨?_, ?_, ?_, ?_⟩
  · unfold getNextPostAt
    cases hheap : (mem addr).m_heap with
    | nullptr => simp
    | node p l r n => simp
  · intro e he
    unfold getNextPostAt at he ⊢
    cases hheap : (mem addr).m_heap with
    | nullptr =>
      rw [hheap] at he
      simp only [Except.error.injEq] at he
      exact ⟨he.symm, rfl⟩
    | node p l r n =>
      rw [hheap] at he
      simp at he
  · intro priFn heapType structure1 hfresh
    unfold getNextPostAt
    rw [hfresh]
    rfl
  · unfold SQueue.getNextPost
    cases hheap : (mem addr).m_heap with
    | nullptr => simp
    | node p l r n => simp

/-- Witness of C11: address 0 of `memABC` holds a freshly constructed queue. -/
theorem C11_empty_queue_error_witness :
    memABC 0 = SQueue.construct TestFn.priorityFn1 MAXHEAP SKEW ∧
    getNextPostAt TestFn.call 0 memABC = (.error (Exn.out_of_range "Queue is empty"), memABC) :=
  ⟨rfl, (C11_empty_queue_error TestFn.call 0 memABC).2.2.1 _ _ _ rfl⟩

/-- C12: for two distinct queue objects, `mergeWithQueue` throws exactly when the
scoring function, the direction or the mode of the donor differs from the
receiver's, the exception is then the `domain_error` for incompatible queues, and
a throwing call leaves the receiver and the donor as they were. -/
theorem C12_incompatible_merge_error {prifn_t : Type} [DecidableEq prifn_t]
    (call : prifn_t → Post → Int) (thisAddr rhsAddr : Nat) (mem : Objects prifn_t)
    (hdistinct : thisAddr ≠ rhsAddr) :
    ((∃ e, (mergeWithQueueAt call thisAddr rhsAddr mem).1 = .error e) ↔
      ((mem thisAddr).m_priorFunc ≠ (mem rhsAddr).m_priorFunc ∨
        (mem thisAddr).m_heapType ≠ (mem rhsAddr).m_heapType ∨
        (mem thisAddr).m_structure ≠ (mem rhsAddr).m_structure)) ∧
    (∀ e, (mergeWithQueueAt call thisAddr rhsAddr mem).1 = .error e →
      e = Exn.domain_error "Incompatible queues cannot be merged." ∧
      (mergeWithQueueAt call thisAddr rhsAddr mem).2 = mem) ∧
    (SQueue.mergeWithQueue call thisAddr rhsAddr (mem thisAddr) (mem rhsAddr) =
        .error (Exn.domain_error "Incompatible queues cannot be merged.") ↔
      ((mem thisAddr).m_priorFunc ≠ (mem rhsAddr).m_priorFunc ∨
        (mem thisAddr).m_heapType ≠ (mem rhsAddr).m_heapType ∨
        (mem thisAddr).m_structure ≠ (mem rhsAddr).m_structure)) := by
  refine ⟨?_, ?_, ?_⟩
  · unfold mergeWithQueueAt
    rw [if_neg hdistinct]
    split
    · rename_i hdiff
      exact ⟨fun _ => hdiff, fun _ => ⟨_, rfl⟩⟩
    · rename_i hsame
      constructor
      · rintro ⟨e, he⟩
        simp at he
      · intro hdiff
        exact absurd hdiff hsame
  · intro e he
    unfold mergeWithQueueAt at he ⊢
    rw [if_neg hdistinct] at he ⊢
    split at he
    · rename_i hdiff
      rw [if_pos hdiff]
      simp only [Except.error.injEq] at he
      exact ⟨he.symm, rfl⟩
    · simp at he
  · unfold SQueue.mergeWithQueue
    rw [if_neg hdistinct]
    split
    · rename_i hdiff
      exact ⟨fun _ => hdiff, fun _ => rfl⟩
    · rename_i hsame
      constructor
      · intro he
        simp at he
      · intro hdiff
        exact absurd hdiff hsame

/-- Witness of C12: `queueA` (priorityFn2, MIN-first, leftist) at address 1 is asked
to merge `queueC` (priorityFn1, MAX-first, skew) at address 3. -/
theorem C12_incompatible_merge_error_witness :
    (1 : Nat) ≠ 3 ∧
    (∃ e, (mergeWithQueueAt TestFn.call 1 3 memABC).1 = .error e) ∧
    (mergeWithQueueAt TestFn.call 1 3 memABC).1 =
      .error (Exn.domain_error "Incompatible queues cannot be merged.") ∧
    (mergeWithQueueAt TestFn.call 1 3 memABC).2 = memABC :=
  have hthrows : ∃ e, (mergeWithQueueAt TestFn.call 1 3 memABC).1 = .error e :=
    (C12_incompatible_merge_error TestFn.call 1 3 memABC (by decide)).1.2
      (Or.inl (by decide))
  ⟨by decide, hthrows,
   by
    obtain ⟨e, he⟩ := hthrows
    rw [he, ((C12_incompatible_merge_error TestFn.call 1 3 memABC (by decide)).2.1 e he).1],
   by
    obtain ⟨e, he⟩ := hthrows
    exact ((C12_incompatible_merge_error TestFn.call 1 3 memABC (by decide)).2.1 e he).2⟩

/-- C13: `q.mergeWithQueue(q)`, with the same object as receiver and donor, throws the
`domain_error` for a self-merge whatever the queue holds and leaves every object
as it was; a distinct object with equal contents is not a self-merge: that call
succeeds. -/
theorem C13_self_merge_error {prifn_t : Type} [DecidableEq prifn_t]
    (call : prifn_t → Post → Int) (addr : Nat) (mem : Objects prifn_t) :
    mergeWithQueueAt call addr addr mem =
      (.error (Exn.domain_error "Cannot merge queue with itself."), mem) ∧
    (∀ q : SQueue prifn_t, SQueue.mergeWithQueue call addr addr q q =
      .error (Exn.domain_error "Cannot merge queue with itself.")) ∧
    (∀ other : Nat, other ≠ addr → mem other = mem addr →
      (mergeWithQueueAt call addr other mem).1 = .ok ()) := by
  refine ⟨?_, ?_, ?_⟩
  · unfold mergeWithQueueAt
    rw [if_pos rfl]
  · intro q
    unfold SQueue.mergeWithQueue
    rw [if_pos rfl]
  · intro other hne heq
    unfold mergeWithQueueAt
    rw [if_neg (fun h => hne h.symm), if_neg (by simp [heq])]

/-- Witness of C13: a memory that holds `queueA` at every address; the merge of
address 1 with address 2 (equal contents, distinct objects) succeeds. -/
theorem C13_self_merge_error_witness :
    (2 : Nat) ≠ 1 ∧
    (fun _ => queueA : Objects TestFn) 2 = (fun _ => queueA : Objects TestFn) 1 ∧
    (mergeWithQueueAt TestFn.call 1 2 (fun _ => queueA)).1 = .ok () :=
  ⟨by decide, rfl,
   (C13_self_merge_error TestFn.call 1 (fun _ => queueA)).2.2 2 (by decide) rfl⟩

/-- On the object it is called on, `assignAt` is `SQueue.assign`, and it writes no
other object. -/
theorem assignAt_eq {prifn_t : Type} (thisAddr rhsAddr : Nat) (mem : Objects prifn_t) :
    assignAt thisAddr rhsAddr mem =
      mem.write thisAddr (SQueue.assign thisAddr rhsAddr (mem thisAddr) (mem rhsAddr)) := by
  unfold assignAt SQueue.assign
  by_cases hsame : thisAddr = rhsAddr
  · simp only [ne_eq, hsame, not_true_eq_false, if_false]
    funext a
    by_cases h : a = rhsAddr <;> simp [Objects.write, h]
  · have hne : rhsAddr ≠ thisAddr := fun h => hsame h.symm
    simp only [ne_eq, hsame, not_false_eq_true, if_true, write_same, write_write,
      write_other _ _ _ _ hne, SQueue.clear]

/-- C14: a queue copy-constructed from `q`, and any queue object after it is assigned
from `q` (whatever it held and however it was configured, the object `q` itself
included), has the scoring function, direction, mode and `numPosts()` of `q` and a
tree with the same topology, payloads and null-path-lengths: it is equal to `q` as
a value, and `q` is not written. Hence draining it gives exactly what draining `q`
gives, in particular the same sequence of scores. -/
theorem C14_deep_copy {prifn_t : Type} (call : prifn_t → Post → Int) (newAddr thisAddr
    rhsAddr : Nat) (mem : Objects prifn_t) :
    (∀ h : PostPtr, deepCopy h = h) ∧
    SQueue.copy (mem rhsAddr) = mem rhsAddr ∧
    copyAt newAddr rhsAddr mem newAddr = mem rhsAddr ∧
    assignAt thisAddr rhsAddr mem thisAddr = mem rhsAddr ∧
    assignAt thisAddr rhsAddr mem rhsAddr = mem rhsAddr ∧
    drain call (copyAt newAddr rhsAddr mem newAddr) = drain call (mem rhsAddr) ∧
    drain call (assignAt thisAddr rhsAddr mem thisAddr) = drain call (mem rhsAddr) := by
  have hcopy : SQueue.copy (mem rhsAddr) = mem rhsAddr := by
    simp only [SQueue.copy, deepCopy_eq]
  have hnew : copyAt newAddr rhsAddr mem newAddr = mem rhsAddr := by
    rw [copyAt, write_same, hcopy]
  have hassign : assignAt thisAddr rhsAddr mem thisAddr = mem rhsAddr := by
    rw [assignAt_eq, write_same]
    unfold SQueue.assign
    by_cases hsame : thisAddr = rhsAddr
    · simp only [ne_eq, hsame, not_true_eq_false, if_false]
    · simp only [ne_eq, hsame, not_false_eq_true, if_true, SQueue.clear, deepCopy_eq]
  have hrhs : assignAt thisAddr rhsAddr mem rhsAddr = mem rhsAddr := by
    by_cases hsame : thisAddr = rhsAddr
    · rw [← hsame]
      rw [← hsame] at hassign
      exact hassign
    · rw [assignAt_eq, write_other _ _ _ _ (fun h => hsame h.symm)]
  exact ⟨deepCopy_eq, hcopy, hnew, hassign, hrhs, by rw [hnew], by rw [hassign]⟩

/-- C15: `setPriorityFn` and `setStructure` leave `numPosts()` and the multiset of
records of the tree unchanged, for every queue, new scoring function, direction
and mode; beside the tree only the members named in the call are set. -/
theorem C15_rebuild_preserves_content {prifn_t : Type} (call : prifn_t → Post → Int)
    (q : SQueue prifn_t) (priFn : prifn_t) (heapType : HEAPTYPE) (structure1 : STRUCTURE) :
    (SQueue.setPriorityFn call q priFn heapType).numPosts = q.numPosts ∧
    (SQueue.setPriorityFn call q priFn heapType).m_heap.records = q.m_heap.records ∧
    (SQueue.setPriorityFn call q priFn heapType).m_heap.count = q.m_heap.count ∧
    (SQueue.setPriorityFn call q priFn heapType).m_priorFunc = priFn ∧
    (SQueue.setPriorityFn call q priFn heapType).m_heapType = heapType ∧
    (SQueue.setPriorityFn call q priFn heapType).m_structure = q.m_structure ∧
    (SQueue.setStructure call q structure1).numPosts = q.numPosts ∧
    (SQueue.setStructure call q structure1).m_heap.records = q.m_heap.records ∧
    (SQueue.setStructure call q structure1).m_heap.count = q.m_heap.count ∧
    (SQueue.setStructure call q structure1).m_priorFunc = q.m_priorFunc ∧
    (SQueue.setStructure call q structure1).m_heapType = q.m_heapType ∧
    (SQueue.setStructure call q structure1).m_structure = structure1 := by
  refine ⟨rfl, ?_, ?_, rfl, rfl, rfl, rfl, ?_, ?_, rfl, rfl, rfl⟩
  · simp only [SQueue.setPriorityFn, SQueue.rebuildHeap, records_rebuildHelper,
      records_nullptr, zero_add]
  · simp only [SQueue.setPriorityFn, SQueue.rebuildHeap, count_rebuildHelper]
  · simp only [SQueue.setStructure, SQueue.rebuildHeap, records_rebuildHelper,
      records_nullptr, zero_add]
  · simp only [SQueue.setStructure, SQueue.rebuildHeap, count_rebuildHelper]

/-- C16: in every reachable state `numPosts()` is the number of nodes of the tree,
so `numPosts() = 0` exactly when the root is absent, and the loop
`while numPosts() > 0: getNextPost()` never throws and stops with an empty tree
and `numPosts() = 0`. -/
theorem C16_size_is_node_count {prifn_t : Type} [DecidableEq prifn_t]
    (call : prifn_t → Post → Int) (q : SQueue prifn_t) (hq : Reachable call q) :
    q.numPosts = (q.m_heap.count : Int) ∧
    (q.numPosts = 0 ↔ q.m_heap = nullptr) ∧
    ∃ (out : List Post) (final : SQueue prifn_t),
      drain call q = .ok (out, final) ∧ final.m_heap = nullptr ∧ final.numPosts = 0 ∧
      (out.length : Int) = q.numPosts := by
  obtain ⟨ho, hs, _⟩ := reachableBy_invariants call _ q hq
  refine ⟨hs, ?_, ?_⟩
  · rw [← count_eq_zero_iff]
    simp only [SQueue.numPosts, hs]
    exact Int.natCast_eq_zero
  · obtain ⟨out, hdrain, hperm, _⟩ := drain_spec call _ q rfl hs ho
    refine ⟨out, _, hdrain, rfl, rfl, ?_⟩
    have hlen : Multiset.card (out : Multiset Post) = q.m_heap.count := by
      rw [hperm, card_records]
    simp only [Multiset.coe_card] at hlen
    simp only [SQueue.numPosts, hs, hlen]

/-- Witness of C16: the queue reached by constructing and inserting `postA`. -/
theorem C16_size_is_node_count_witness :
    Reachable TestFn.call queueA ∧
    (queueA.numPosts = (queueA.m_heap.count : Int) ∧
    (queueA.numPosts = 0 ↔ queueA.m_heap = nullptr) ∧
    ∃ (out : List Post) (final : SQueue TestFn),
      drain TestFn.call queueA = .ok (out, final) ∧ final.m_heap = nullptr ∧
      final.numPosts = 0 ∧ (out.length : Int) = queueA.numPosts) :=
  ⟨ReachableBy.insertPost _ postA (ReachableBy.construct _ _ _),
   C16_size_is_node_count TestFn.call queueA
    (ReachableBy.insertPost _ postA (ReachableBy.construct _ _ _))⟩

/-- C17: in both modes and for every comparator `mergeNodes(absent, h) = h` and
`mergeNodes(h, absent) = h`, with the shape, payloads and null-path-lengths of `h`;
hence merging an empty compatible queue into a queue succeeds and leaves the tree
and `numPosts()` of the receiver (the whole receiver) unchanged. -/
theorem C17_absent_operand_identity {prifn_t : Type} [DecidableEq prifn_t]
    (call : prifn_t → Post → Int) :
    (∀ (f : Post → Int) (ht : HEAPTYPE) (st : STRUCTURE) (h : PostPtr),
      mergeNodes f ht st nullptr h = h ∧ mergeNodes f ht st h nullptr = h) ∧
    (∀ (thisAddr rhsAddr : Nat) (this rhs : SQueue prifn_t),
      thisAddr ≠ rhsAddr → this.m_priorFunc = rhs.m_priorFunc →
      this.m_heapType = rhs.m_heapType → this.m_structure = rhs.m_structure →
      rhs.m_heap = nullptr → rhs.numPosts = 0 →
      SQueue.mergeWithQueue call thisAddr rhsAddr this rhs = .ok (this, rhs)) := by
  refine ⟨fun f ht st h => ⟨mergeNodes_nullptr_left f ht st h,
    mergeNodes_nullptr_right f ht st h⟩, ?_⟩
  intro thisAddr rhsAddr this rhs hdistinct hfn htype hmode hempty hsize
  unfold SQueue.mergeWithQueue
  rw [if_neg hdistinct, if_neg (by simp [hfn, htype, hmode])]
  simp only [SQueue.numPosts] at hsize
  cases this
  cases rhs
  simp only at hempty hsize
  simp [hempty, hsize, mergeNodes_nullptr_right]

/-- Witness of C17: a freshly constructed compatible queue at address 2 is merged
into `queueA` at address 1. -/
theorem C17_absent_operand_identity_witness :
    SQueue.mergeWithQueue TestFn.call 1 2 queueA
        (SQueue.construct TestFn.priorityFn2 MINHEAP LEFTIST) =
      .ok (queueA, SQueue.construct TestFn.priorityFn2 MINHEAP LEFTIST) :=
  (C17_absent_operand_identity TestFn.call).2 1 2 queueA
    (SQueue.construct TestFn.priorityFn2 MINHEAP LEFTIST)
    (by decide) (by decide) (by decide) (by decide) rfl rfl

/-! ## The merge step and the rebuild as a fold -/

theorem rootPost_mergeStep (st : STRUCTURE) (p : Post) (l : PostPtr) (n : Int) (m : PostPtr) :
    (mergeStep st p l n m).rootPost = some p := by
  unfold mergeStep
  split <;> rfl

theorem rootPost_mergeNodes (f : Post → Int) (ht : HEAPTYPE) (st : STRUCTURE)
    (p1 : Post) (l1 r1 : PostPtr) (n1 : Int) (p2 : Post) (l2 r2 : PostPtr) (n2 : Int) :
    (mergeNodes f ht st (node p1 l1 r1 n1) (node p2 l2 r2 n2)).rootPost =
      some (if comparePosts f ht p1 p2 then p1 else p2) := by
  rw [mergeNodes_node_node]
  split <;> exact rootPost_mergeStep _ _ _ _ _

theorem comparePosts_of_score_eq (f : Post → Int) (ht : HEAPTYPE) (a b : Post)
    (h : f a = f b) : comparePosts f ht a b = true := by
  rw [comparePosts_iff]
  cases ht <;> simp only [ranksAtLeast] <;> omega

theorem nodes_mergeNodes_skew (f : Post → Int) (ht : HEAPTYPE) (h1 h2 : PostPtr) :
    (mergeNodes f ht SKEW h1 h2).nodes = h1.nodes + h2.nodes := by
  induction h1, h2 using mergeNodes.induct f ht SKEW with
  | case1 h2 => rw [mergeNodes_nullptr_left]; simp [PostPtr.nodes]
  | case2 p1 l1 r1 n1 => rw [mergeNodes_nullptr_right]; simp [PostPtr.nodes]
  | case3 p1 l1 r1 n1 p2 l2 r2 n2 hc ih =>
    rw [mergeNodes_node_node, if_pos hc]
    simp only [mergeStep, if_true, PostPtr.nodes] at ih ⊢
    rw [ih]
    simp only [← Multiset.singleton_add]
    abel
  | case4 p1 l1 r1 n1 p2 l2 r2 n2 hc ih =>
    rw [mergeNodes_node_node, if_neg hc]
    simp only [mergeStep, if_true, PostPtr.nodes] at ih ⊢
    rw [ih]
    simp only [← Multiset.singleton_add]
    abel

/-- `rebuildHelper` folds the merge of singletons over the pre-order listing. -/
theorem rebuildHelper_eq_foldl (f : Post → Int) (ht : HEAPTYPE) (st : STRUCTURE)
    (h : PostPtr) : ∀ acc : PostPtr,
      rebuildHelper f ht st h acc =
        h.preorder.foldl (fun a record => mergeNodes f ht st a (singleton record)) acc := by
  induction h with
  | nullptr => intro acc; rfl
  | node p l r n ihl ihr =>
    intro acc
    simp only [rebuildHelper, PostPtr.preorder, List.foldl_cons, List.foldl_append]
    rw [ihr, ihl]
    rfl

/-- Valid inserts fold the merge of singletons over the inserted records. -/
theorem insertAll_heap {prifn_t : Type} (call : prifn_t → Post → Int) :
    ∀ (posts : List Post) (q : SQueue prifn_t), (∀ r ∈ posts, call q.m_priorFunc r ≠ 0) →
      (insertAll call q posts).m_heap =
        posts.foldl (fun a record =>
          mergeNodes (call q.m_priorFunc) q.m_heapType q.m_structure a (singleton record))
          q.m_heap := by
  intro posts
  induction posts with
  | nil => intro q _; rfl
  | cons post rest ih =>
    intro q hv
    have hpost : call q.m_priorFunc post ≠ 0 := hv post (List.mem_cons_self _ _)
    have hins : SQueue.insertPost call q post = (true, { q with
        m_heap := mergeNodes (call q.m_priorFunc) q.m_heapType q.m_structure q.m_heap
          (node post nullptr nullptr 0),
        m_size := q.m_size + 1 }) := by
      unfold SQueue.insertPost
      rw [if_neg hpost]
    simp only [insertAll, hins, List.foldl_cons]
    exact ih { q with
        m_heap := mergeNodes (call q.m_priorFunc) q.m_heapType q.m_structure q.m_heap
          (node post nullptr nullptr 0),
        m_size := q.m_size + 1 }
      (fun r hr => hv r (List.mem_cons_of_mem _ hr))

/-- C18: for two non-absent trees the root record of `mergeNodes(h1, h2)` is the root
of `h1` exactly when `comparePosts` holds, that is when `score(h1) ≤ score(h2)`
in MIN-first and `score(h1) ≥ score(h2)` in MAX-first, and the root of `h2`
otherwise; with equal root scores it is the root of `h1`, the first operand. -/
theorem C18_keep_first_tie_break (f : Post → Int) (ht : HEAPTYPE) (st : STRUCTURE)
    (p1 : Post) (l1 r1 : PostPtr) (n1 : Int) (p2 : Post) (l2 r2 : PostPtr) (n2 : Int) :
    (comparePosts f ht p1 p2 = true ↔ ranksAtLeast f ht p1 p2) ∧
    ((mergeNodes f ht st (node p1 l1 r1 n1) (node p2 l2 r2 n2)).rootPost = some p1 ↔
      comparePosts f ht p1 p2 = true) ∧
    (comparePosts f ht p1 p2 = false →
      (mergeNodes f ht st (node p1 l1 r1 n1) (node p2 l2 r2 n2)).rootPost = some p2) ∧
    (f p1 = f p2 →
      (mergeNodes f ht st (node p1 l1 r1 n1) (node p2 l2 r2 n2)).rootPost = some p1) := by
  have hroot := rootPost_mergeNodes f ht st p1 l1 r1 n1 p2 l2 r2 n2
  refine ⟨comparePosts_iff f ht p1 p2, ?_, ?_, ?_⟩
  · constructor
    · intro h1
      by_cases hc : comparePosts f ht p1 p2 = true
      · exact hc
      · rw [hroot, if_neg hc] at h1
        have heq : p2 = p1 := Option.some.inj h1
        rw [heq] at hc
        exact absurd (comparePosts_of_score_eq f ht p1 p1 rfl) hc
    · intro hc
      rw [hroot, if_pos hc]
  · intro hc
    rw [hroot, hc]
    rfl
  · intro hs
    rw [hroot, if_pos (comparePosts_of_score_eq f ht p1 p2 hs)]

/-- Witness of C18: MAX-first under `priorityFn1`, `postB` (score 11) is presented
first and `postA` (score 12) second, so the root is that of the second operand;
and `postA` merged with a second node of equal score stays the root. -/
theorem C18_keep_first_tie_break_witness :
    comparePosts priorityFn1 MAXHEAP postB postA = false ∧
    (mergeNodes priorityFn1 MAXHEAP LEFTIST (node postB nullptr nullptr 0)
      (node postA nullptr nullptr 0)).rootPost = some postA ∧
    priorityFn1 postA = priorityFn1 ⟨7, 2, 0, 0, 10⟩ ∧
    (mergeNodes priorityFn1 MAXHEAP LEFTIST (node postA nullptr nullptr 0)
      (node ⟨7, 2, 0, 0, 10⟩ nullptr nullptr 0)).rootPost = some postA :=
  ⟨by decide,
   (C18_keep_first_tie_break priorityFn1 MAXHEAP LEFTIST postB nullptr nullptr 0
      postA nullptr nullptr 0).2.2.1 (by decide),
   by decide,
   (C18_keep_first_tie_break priorityFn1 MAXHEAP LEFTIST postA nullptr nullptr 0
      ⟨7, 2, 0, 0, 10⟩ nullptr nullptr 0).2.2.2 (by decide)⟩

/-- C19: in SKEW mode, for two non-absent trees, `mergeNodes` returns the node of the
operand `w` whose root stays on top, with the null-path-length it had, whose
right child is the original left subtree of `w` and whose left child is
`mergeNodes(original right subtree of w, the other operand)`: the children are
swapped unconditionally. No null-path-length is changed anywhere: the nodes of
the result, each with its stored null-path-length, are those of the two operands. -/
theorem C19_skew_merge_step (f : Post → Int) (ht : HEAPTYPE)
    (p1 : Post) (l1 r1 : PostPtr) (n1 : Int) (p2 : Post) (l2 r2 : PostPtr) (n2 : Int) :
    mergeNodes f ht SKEW (node p1 l1 r1 n1) (node p2 l2 r2 n2) =
      (if comparePosts f ht p1 p2 then
        node p1 (mergeNodes f ht SKEW r1 (node p2 l2 r2 n2)) l1 n1
      else
        node p2 (mergeNodes f ht SKEW r2 (node p1 l1 r1 n1)) l2 n2) ∧
    ∀ h1 h2 : PostPtr, (mergeNodes f ht SKEW h1 h2).nodes = h1.nodes + h2.nodes := by
  refine ⟨?_, nodes_mergeNodes_skew f ht⟩
  rw [mergeNodes_node_node]
  simp only [mergeStep, if_true]

/-- C20: the tree after `setPriorityFn` or `setStructure` is the left fold, over the
pre-order listing of the records of the old tree, of
`acc := mergeNodes(acc, singleton(record))` from the absent tree with the new
comparator and mode; when no record of the tree scores 0 under the scoring
function in force after the call, it is the tree obtained by `insertPost` of the
records in that order into a fresh queue with the new configuration. -/
theorem C20_rebuild_is_preorder_remerge {prifn_t : Type} (call : prifn_t → Post → Int)
    (q : SQueue prifn_t) (priFn : prifn_t) (heapType : HEAPTYPE) (structure1 : STRUCTURE) :
    (SQueue.setPriorityFn call q priFn heapType).m_heap =
      remergeInOrder (call priFn) heapType q.m_structure q.m_heap.preorder ∧
    (SQueue.setStructure call q structure1).m_heap =
      remergeInOrder (call q.m_priorFunc) q.m_heapType structure1 q.m_heap.preorder ∧
    ((∀ r ∈ q.m_heap.preorder, call priFn r ≠ 0) →
      (insertAll call (SQueue.construct priFn heapType q.m_structure)
        q.m_heap.preorder).m_heap = (SQueue.setPriorityFn call q priFn heapType).m_heap) ∧
    ((∀ r ∈ q.m_heap.preorder, call q.m_priorFunc r ≠ 0) →
      (insertAll call (SQueue.construct q.m_priorFunc q.m_heapType structure1)
        q.m_heap.preorder).m_heap = (SQueue.setStructure call q structure1).m_heap) := by
  have h1 : (SQueue.setPriorityFn call q priFn heapType).m_heap =
      remergeInOrder (call priFn) heapType q.m_structure q.m_heap.preorder := by
    simp only [SQueue.setPriorityFn, SQueue.rebuildHeap, rebuildHelper_eq_foldl,
      remergeInOrder]
  have h2 : (SQueue.setStructure call q structure1).m_heap =
      remergeInOrder (call q.m_priorFunc) q.m_heapType structure1 q.m_heap.preorder := by
    simp only [SQueue.setStructure, SQueue.rebuildHeap, rebuildHelper_eq_foldl,
      remergeInOrder]
  refine ⟨h1, h2, ?_, ?_⟩
  · intro hv
    rw [h1, insertAll_heap call q.m_heap.preorder
      (SQueue.construct priFn heapType q.m_structure) hv]
    rfl
  · intro hv
    rw [h2, insertAll_heap call q.m_heap.preorder
      (SQueue.construct q.m_priorFunc q.m_heapType structure1) hv]
    rfl

/-- Witness of C20: the two-node skew tree `treeAB` under `priorityFn2`, rebound to
`priorityFn1` MAX-first, which scores both records non-zero. -/
theorem C20_rebuild_is_preorder_remerge_witness :
    (∀ r ∈ treeAB.preorder, TestFn.call TestFn.priorityFn1 r ≠ 0) ∧
    (insertAll TestFn.call (SQueue.construct TestFn.priorityFn1 MAXHEAP SKEW)
        treeAB.preorder).m_heap =
      (SQueue.setPriorityFn TestFn.call
        { m_heap := treeAB, m_size := 2, m_priorFunc := TestFn.priorityFn2,
          m_heapType := MINHEAP, m_structure := SKEW }
        TestFn.priorityFn1 MAXHEAP).m_heap :=
  ⟨by decide,
   (C20_rebuild_is_preorder_remerge TestFn.call
      { m_heap := treeAB, m_size := 2, m_priorFunc := TestFn.priorityFn2,
        m_heapType := MINHEAP, m_structure := SKEW }
      TestFn.priorityFn1 MAXHEAP SKEW).2.2.1 (by decide)⟩

/-! ## Shape of leftist trees -/

/-- C21, evaluated on the code: after `insertPost(postB)` and `insertPost(postA)` into a
fresh MIN-first leftist queue under `priorityFn2`, the root `postB` has an absent
left child and the leaf `postA` as right child; it stores null-path-length 1,
while its shortest downward path to a node with at most one child has 0 edges
(the root itself has one child). -/
theorem C21_stored_npl_differs :
    Reachable TestFn.call queueBA ∧ queueBA.m_structure = LEFTIST ∧
    queueBA.m_heap = node postB nullptr (node postA nullptr nullptr 0) 1 ∧
    nplOr0 queueBA.m_heap = 1 ∧ nullPathLength queueBA.m_heap = 0 ∧
    ¬ everyNode (fun t => nplOr0 t = (nullPathLength t : Int)) queueBA.m_heap := by
  have hreach : Reachable TestFn.call queueBA :=
    ReachableBy.insertPost _ postA
      (ReachableBy.insertPost _ postB (ReachableBy.construct _ _ _))
  refine ⟨hreach, by decide, queueBA_heap, ?_, ?_, ?_⟩
  · rw [queueBA_heap]; rfl
  · rw [queueBA_heap]; rfl
  · rw [queueBA_heap]
    intro h
    have h1 := h.1
    simp [nplOr0, nullPathLength] at h1

/-- Under the leftist invariant as the code keeps it, the stored null-path-length of
every node is the length of its rightmost path and its subtree has at least
`2 ^ npl` nodes. -/
theorem leftistInv_spine (h : PostPtr) (hv : leftistInv h) :
    everyNode (fun t => nplOr0 t = (rightSpine t : Int) ∧ 2 ^ rightSpine t ≤ t.count) h := by
  induction h with
  | nullptr => trivial
  | node p l r n ihl ihr =>
    obtain ⟨hge, hn, hl, hr⟩ := hv
    have el := ihl hl
    have er := ihr hr
    refine ⟨?_, el, er⟩
    cases r with
    | nullptr =>
      refine ⟨?_, ?_⟩
      · simpa [nplOr0, rightSpine, nplOfRight] using hn
      · simp [rightSpine, PostPtr.count]
    | node pr lr rr nr =>
      obtain ⟨hnr, hpow⟩ := er.1
      simp only [nplOr0] at hnr hge
      simp only [nplOfRight] at hn
      have hspine : rightSpine (node p l (node pr lr rr nr) n) =
          rightSpine (node pr lr rr nr) + 1 := rfl
      refine ⟨?_, ?_⟩
      · simp only [nplOr0, hspine]
        push_cast
        omega
      · rw [hspine, pow_succ]
        have hcr : 1 ≤ (node pr lr rr nr).count := by simp [PostPtr.count]
        cases l with
        | nullptr =>
          simp only [nplOr0] at hge
          have hzero : rightSpine (node pr lr rr nr) = 0 := by omega
          rw [hzero] at hpow ⊢
          simp only [PostPtr.count] at hcr ⊢
          omega
        | node pl ll rl nl =>
          obtain ⟨hnl, hpowl⟩ := el.1
          simp only [nplOr0] at hnl hge
          have hle : rightSpine (node pr lr rr nr) ≤ rightSpine (node pl ll rl nl) := by
            omega
          have hmono : 2 ^ rightSpine (node pr lr rr nr) ≤
              2 ^ rightSpine (node pl ll rl nl) :=
            Nat.pow_le_pow_right (by decide) hle
          have hcount : (node p (node pl ll rl nl) (node pr lr rr nr) n).count =
              (node pl ll rl nl).count + (node pr lr rr nr).count + 1 := rfl
          rw [hcount]
          omega

theorem rightSpine_le_log (h : PostPtr)
    (hv : everyNode (fun t => nplOr0 t = (rightSpine t : Int) ∧ 2 ^ rightSpine t ≤ t.count) h) :
    rightSpine h ≤ Nat.log 2 h.count := by
  cases h with
  | nullptr => exact Nat.zero_le _
  | node p l r n => exact Nat.le_log_of_pow_le (by decide) hv.1.2

/-- C22: in every reachable LEFTIST state the stored null-path-length of every node
is the number of edges on the rightmost path below that node and the subtree
rooted at that node has at least `2 ^ npl` nodes; hence the rightmost path of the
queue, along which `mergeNodes` recurses, has at most `floor(log2 n)` edges, where
`n = numPosts()` is the number of records. -/
theorem C22_logarithmic_right_spine {prifn_t : Type} [DecidableEq prifn_t]
    (call : prifn_t → Post → Int) (q : SQueue prifn_t) (hq : Reachable call q)
    (hmode : q.m_structure = LEFTIST) :
    everyNode (fun t => nplOr0 t = (rightSpine t : Int) ∧ 2 ^ rightSpine t ≤ t.count)
      q.m_heap ∧
    rightSpine q.m_heap ≤ Nat.log 2 q.m_heap.count ∧
    rightSpine q.m_heap ≤ Nat.log 2 q.numPosts.toNat := by
  obtain ⟨_, hs, hl⟩ := reachableBy_invariants call _ q hq
  have hevery := leftistInv_spine q.m_heap (hl hmode)
  have hlog := rightSpine_le_log q.m_heap hevery
  refine ⟨hevery, hlog, ?_⟩
  simp only [SQueue.numPosts, hs, Int.toNat_ofNat]
  exact hlog

/-- Witness of C22: the leftist queue `queueBA`, whose root has a right child only. -/
theorem C22_logarithmic_right_spine_witness :
    Reachable TestFn.call queueBA ∧ queueBA.m_structure = LEFTIST ∧
    (everyNode (fun t => nplOr0 t = (rightSpine t : Int) ∧ 2 ^ rightSpine t ≤ t.count)
      queueBA.m_heap ∧
    rightSpine queueBA.m_heap ≤ Nat.log 2 queueBA.m_heap.count ∧
    rightSpine queueBA.m_heap ≤ Nat.log 2 queueBA.numPosts.toNat) :=
  ⟨ReachableBy.insertPost _ postA
      (ReachableBy.insertPost _ postB (ReachableBy.construct _ _ _)),
   by decide,
   C22_logarithmic_right_spine TestFn.call queueBA
    (ReachableBy.insertPost _ postA
      (ReachableBy.insertPost _ postB (ReachableBy.construct _ _ _)))
    (by decide)⟩

/-! ## Independence of the structural mode -/

theorem insertPost_config {prifn_t : Type} (call : prifn_t → Post → Int) (q : SQueue prifn_t)
    (post : Post) :
    (SQueue.insertPost call q post).1 = decide (call q.m_priorFunc post ≠ 0) ∧
    (SQueue.insertPost call q post).2.m_priorFunc = q.m_priorFunc ∧
    (SQueue.insertPost call q post).2.m_heapType = q.m_heapType ∧
    (SQueue.insertPost call q post).2.m_structure = q.m_structure := by
  unfold SQueue.insertPost
  split
  · rename_i hz
    simp [hz]
  · rename_i hnz
    simp [hnz]

/-- The flag `insertPost` returns depends on the scoring function only. -/
theorem insertResults_eq {prifn_t : Type} (call : prifn_t → Post → Int) :
    ∀ (posts : List Post) (q : SQueue prifn_t),
      insertResults call q posts = posts.map (fun r => decide (call q.m_priorFunc r ≠ 0)) := by
  intro posts
  induction posts with
  | nil => intro q; rfl
  | cons post rest ih =>
    intro q
    obtain ⟨hflag, hfn, _, _⟩ := insertPost_config call q post
    simp only [insertResults, List.map_cons, hflag]
    rw [ih (SQueue.insertPost call q post).2, hfn]

/-- After any inserts the queue is heap ordered, its counter is its node count, and
it holds the old records and the accepted ones. -/
theorem insertAll_accepted {prifn_t : Type} (call : prifn_t → Post → Int) :
    ∀ (posts : List Post) (q : SQueue prifn_t),
      heapOrdered (call q.m_priorFunc) q.m_heapType q.m_heap →
      q.m_size = (q.m_heap.count : Int) →
      heapOrdered (call q.m_priorFunc) q.m_heapType (insertAll call q posts).m_heap ∧
        (insertAll call q posts).m_size = ((insertAll call q posts).m_heap.count : Int) ∧
        (insertAll call q posts).m_heap.records =
          q.m_heap.records + (accepted (call q.m_priorFunc) posts : Multiset Post) ∧
        (insertAll call q posts).m_priorFunc = q.m_priorFunc ∧
        (insertAll call q posts).m_heapType = q.m_heapType := by
  intro posts
  induction posts with
  | nil =>
    intro q ho hs
    refine ⟨ho, hs, ?_, rfl, rfl⟩
    simp [insertAll, accepted]
  | cons post rest ih =>
    intro q ho hs
    by_cases hz : call q.m_priorFunc post = 0
    · have hins : SQueue.insertPost call q post = (false, q) := by
        unfold SQueue.insertPost
        rw [if_pos hz]
      simp only [insertAll, hins]
      obtain ⟨h1, h2, h3, h4, h5⟩ := ih q ho hs
      refine ⟨h1, h2, ?_, h4, h5⟩
      rw [h3]
      simp [accepted, hz]
    · have hins : SQueue.insertPost call q post = (true, { q with
          m_heap := mergeNodes (call q.m_priorFunc) q.m_heapType q.m_structure q.m_heap
            (node post nullptr nullptr 0),
          m_size := q.m_size + 1 }) := by
        unfold SQueue.insertPost
        rw [if_neg hz]
      simp only [insertAll, hins]
      obtain ⟨h1, h2, h3, h4, h5⟩ := ih
        { q with
          m_heap := mergeNodes (call q.m_priorFunc) q.m_heapType q.m_structure q.m_heap
            (node post nullptr nullptr 0),
          m_size := q.m_size + 1 }
        (heapOrdered_mergeNodes _ _ _ _ _ ho (heapOrdered_singleton _ _ _ _))
        (by simp only [count_mergeNodes, PostPtr.count, hs]; push_cast; ring)
      refine ⟨h1, h2, ?_, h4, h5⟩
      rw [h3]
      simp only [records_mergeNodes, records_node, records_nullptr, add_zero, accepted,
        List.filter_cons, hz, ne_eq, not_false_eq_true, decide_True, if_true]
      rw [add_assoc]
      rfl

theorem scores_eq_of_ordered_perm (ht : HEAPTYPE) (l1 l2 : List Int) (hp : l1.Perm l2)
    (h1 : scoresOrdered ht l1) (h2 : scoresOrdered ht l2) : l1 = l2 := by
  cases ht with
  | MINHEAP =>
    haveI : IsAntisymm Int (fun a b => a ≤ b) := ⟨fun _ _ hab hba => le_antisymm hab hba⟩
    exact List.eq_of_perm_of_sorted hp h1 h2
  | MAXHEAP =>
    haveI : IsAntisymm Int (fun a b => a ≥ b) := ⟨fun _ _ hab hba => le_antisymm hba hab⟩
    exact List.eq_of_perm_of_sorted hp h1 h2

/-- Inserting any records into a fresh queue and draining it gives every accepted
record once, with ordered scores, and leaves the queue empty. -/
theorem fresh_insert_drain {prifn_t : Type} (call : prifn_t → Post → Int) (priFn : prifn_t)
    (heapType : HEAPTYPE) (structure1 : STRUCTURE) (posts : List Post) :
    (insertAll call (SQueue.construct priFn heapType structure1) posts).numPosts =
      ((accepted (call priFn) posts).length : Int) ∧
    ∃ (out : List Post) (final : SQueue prifn_t),
      drain call (insertAll call (SQueue.construct priFn heapType structure1) posts)
        = .ok (out, final) ∧
      out.Perm (accepted (call priFn) posts) ∧
      scoresOrdered heapType (out.map (call priFn)) := by
  obtain ⟨ho, hs, hrec, hf, hht⟩ := insertAll_accepted call posts
    (SQueue.construct priFn heapType structure1) trivial rfl
  have hrec1 : (insertAll call (SQueue.construct priFn heapType structure1) posts).m_heap.records
      = (accepted (call priFn) posts : Multiset Post) := by
    rw [hrec]
    simp only [SQueue.construct, records_nullptr, zero_add]
  obtain ⟨out, hdrain, hperm, hsorted⟩ := drain_spec call _ _ rfl hs (by rw [hf, hht]; exact ho)
  rw [hf, hht] at hsorted
  rw [hrec1] at hperm
  refine ⟨?_, out, _, hdrain, Multiset.coe_eq_coe.1 hperm,
    scoresOrdered_map (call priFn) heapType out hsorted⟩
  have hcard := card_records (insertAll call (SQueue.construct priFn heapType structure1)
    posts).m_heap
  rw [hrec1, Multiset.coe_card] at hcard
  simp only [SQueue.numPosts, hs, hcard]

/-- C23: for every scoring function, direction and finite sequence of records, a SKEW
queue and a LEFTIST queue constructed with that comparator and given the same
`insertPost` calls return the same flag from each `insertPost`, have the same
`numPosts()`, and both drain without throwing to the same sequence of scores: the
scores of the accepted records in non-decreasing (MIN-first) or non-increasing
(MAX-first) order. -/
theorem C23_mode_independent_extraction {prifn_t : Type} (call : prifn_t → Post → Int)
    (priFn : prifn_t) (heapType : HEAPTYPE) (posts : List Post) :
    insertResults call (SQueue.construct priFn heapType SKEW) posts =
      insertResults call (SQueue.construct priFn heapType LEFTIST) posts ∧
    (insertAll call (SQueue.construct priFn heapType SKEW) posts).numPosts =
      (insertAll call (SQueue.construct priFn heapType LEFTIST) posts).numPosts ∧
    ∃ (outS outL : List Post) (finalS finalL : SQueue prifn_t),
      drain call (insertAll call (SQueue.construct priFn heapType SKEW) posts)
        = .ok (outS, finalS) ∧
      drain call (insertAll call (SQueue.construct priFn heapType LEFTIST) posts)
        = .ok (outL, finalL) ∧
      outS.map (call priFn) = outL.map (call priFn) ∧
      scoresOrdered heapType (outS.map (call priFn)) ∧
      (outS.map (call priFn)).Perm ((accepted (call priFn) posts).map (call priFn)) := by
  obtain ⟨hnS, outS, finalS, hdS, hpS, hoS⟩ := fresh_insert_drain call priFn heapType SKEW posts
  obtain ⟨hnL, outL, finalL, hdL, hpL, hoL⟩ :=
    fresh_insert_drain call priFn heapType LEFTIST posts
  refine ⟨?_, ?_, outS, outL, finalS, finalL, hdS, hdL, ?_, hoS, hpS.map _⟩
  · rw [insertResults_eq, insertResults_eq]
    rfl
  · rw [hnS, hnL]
  · exact scores_eq_of_ordered_perm heapType _ _ ((hpS.trans hpL.symm).map _) hoS hoL

end SQueueModel
